import Mathlib

/-!
Verification development for the aoc-parse parser-combinator library.

The source text is modelled as a list of characters; all offsets are indices
into that list.  Fallible operations that in Rust return
Result<T, Reported> while mutating the ParseContext are modelled as
functions returning (Option T × ParseContext): none plays the role of the
Reported sentinel, and the returned context carries the foremost-error slot.
Loops in the source are modelled by structural recursion on an explicit
fuel argument; a theorem about a loop is stated for runs that complete
within the given fuel.
-/

namespace AocParse

/-- Error kinds, modelled from the spec: the file error.rs is not present in
the source tree; the spec lists the kinds Expected, FromStrFailed,
ExtraUnparsed, LineExtra, SectionExtra, BadLineStart, BadSectionStart. -/
inductive ErrorKind : Type where
  | Expected (noun : String)
  | FromStrFailed (typeName message : String)
  | ExtraUnparsed
  | LineExtra
  | SectionExtra
  | BadLineStart
  | BadSectionStart
deriving Repr, DecidableEq

/-- ParseError, modelled from the spec (error.rs is not in the tree):
a kind together with the byte location the failure is attributed to.
The optional span end and the copy of the source kept for formatting do not
influence any behaviour treated here and are omitted. -/
structure ParseError : Type where
  kind : ErrorKind
  location : Nat
deriving Repr, DecidableEq

/-- Translating an error out of a nested region context, modelled from the
spec (error.rs is not in the tree): the location is translated by the
region start offset. -/
def ParseError.adjust_location (err : ParseError) (start : Nat) : ParseError :=
  { err with location := err.location + start }

/-- ParseContext from context.rs: the source being parsed and the
foremost-error slot.  The rule-set registry is omitted: no claim treated
here involves rule sets. -/
structure ParseContext : Type where
  source : List Char
  foremost_error : Option ParseError
deriving Repr, DecidableEq

/-- ParseContext::new. -/
def ParseContext.new (source : List Char) : ParseContext :=
  { source := source, foremost_error := none }

/-- ParseContext::report from context.rs: store err iff
Some(err.location) > foremost_error.map(|e| e.location), where None is
smaller than every Some. -/
def ParseContext.report (ctx : ParseContext) (err : ParseError) : ParseContext :=
  match ctx.foremost_error with
  | none => { ctx with foremost_error := some err }
  | some e =>
      if e.location < err.location then { ctx with foremost_error := some err } else ctx

/-- ParseContext::error_expected from context.rs. -/
def ParseContext.error_expected (ctx : ParseContext) (start : Nat) (expected : String) :
    ParseContext :=
  ctx.report { kind := .Expected expected, location := start }

/-- ParseContext::error_extra from context.rs. -/
def ParseContext.error_extra (ctx : ParseContext) (location : Nat) : ParseContext :=
  ctx.report { kind := .ExtraUnparsed, location := location }

/-- ParseContext::with_slice from context.rs: run f on a fresh child context
scoped to source[start..stop]; if f fails, report the child's recorded
error, adjusted by start, to the parent.  (The rule-set swap is omitted
together with the registry.  When f fails without having recorded an
error, the Rust code panics inside into_reported_error; that branch is
modelled as leaving the parent unchanged and is avoided by every theorem
below.) -/
def ParseContext.with_slice {T : Type} (ctx : ParseContext) (start stop : Nat)
    (f : ParseContext → Option T × ParseContext) : Option T × ParseContext :=
  let inner0 : ParseContext :=
    { source := (ctx.source.drop start).take (stop - start), foremost_error := none }
  let r := f inner0
  match r.1 with
  | some t => (some t, ctx)
  | none =>
      match r.2.foremost_error with
      | some e => (none, ctx.report (e.adjust_location start))
      | none => (none, ctx)

/-- Location of the foremost error, if any. -/
def ParseContext.foremostLoc (ctx : ParseContext) : Option Nat :=
  ctx.foremost_error.map (fun e => e.location)

/-!
The Parser / ParseIter traits (traits.rs is not in the tree; the shape is
determined by every impl in src/parsers and by the spec).  A parser is
bundled with the type σ of its in-flight iterators:

- parse_iter ctx start: start a match attempt; some it is Ok(iter),
  none is Err(Reported) with the error recorded in the returned context;
- match_end it: the current candidate end of match;
- backtrack it ctx: advance the iterator to its next candidate, none
  meaning exhaustion;
- convert it: finalize the current candidate into a value (pure).
-/
structure MParser (σ : Type) (α : Type) : Type where
  parse_iter : ParseContext → Nat → Option σ × ParseContext
  match_end : σ → Nat
  backtrack : σ → ParseContext → Option σ × ParseContext
  convert : σ → α

/-- EmptyParser from empty.rs: matches the empty string at any offset,
single candidate.  The iterator stores its location. -/
def emptyP : MParser Nat Unit :=
  { parse_iter := fun ctx start => (some start, ctx)
    match_end := fun location => location
    backtrack := fun _ ctx => (none, ctx)
    convert := fun _ => () }

/-- ExactParser from exact.rs: matches iff source[start..] starts with s;
single candidate with end = start + s.len().  (exact.rs in the tree
predates the ParseContext API and returns its error directly; the error
is routed through the context here, as the spec and every other parser
do: Expected(literal) at start.) -/
def exactP (s : List Char) : MParser Nat Unit :=
  { parse_iter := fun ctx start =>
      if (ctx.source.drop start).take s.length = s then
        (some (start + s.length), ctx)
      else
        (none, ctx.error_expected start (String.mk s))
    match_end := fun stop => stop
    backtrack := fun _ ctx => (none, ctx)
    convert := fun _ => () }

/-- Iterator of a character parser from chars.rs: the matched character and
the end offset. -/
structure CharIter : Type where
  c : Char
  stop : Nat
deriving Repr, DecidableEq

/-- CharParser from chars.rs: consumes exactly one character satisfying the
predicate; on failure reports Expected(noun) at start.  In the char-list
model every character has length one. -/
def charP (noun : String) (pred : Char → Bool) : MParser CharIter Char :=
  { parse_iter := fun ctx start =>
      match (ctx.source.drop start).head? with
      | some c =>
          if pred c then (some ⟨c, start + 1⟩, ctx)
          else (none, ctx.error_expected start noun)
      | none => (none, ctx.error_expected start noun)
    match_end := fun it => it.stop
    backtrack := fun _ ctx => (none, ctx)
    convert := fun it => it.c }

/-- The any_char parser from chars.rs. -/
def any_char : MParser CharIter Char :=
  charP "any character" (fun _ => true)

/-- MapParser from map.rs: the iterator delegates match_end and backtrack
to the inner iterator; the mapper is applied only when converting. -/
def mapP {σ α β : Type} (p : MParser σ α) (f : α → β) : MParser σ β :=
  { parse_iter := p.parse_iter
    match_end := p.match_end
    backtrack := p.backtrack
    convert := fun it => f (p.convert it) }

/-- Iterator of StringParser from string.rs: the captured source, the start
offset, and the inner iterator. -/
structure StringIter (σ : Type) : Type where
  source : List Char
  start : Nat
  iter : σ

/-- StringParser from string.rs: runs the inner parser, delegates
backtracking to it, and converts to the source slice from start to the
inner match_end. -/
def stringP {σ α : Type} (p : MParser σ α) : MParser (StringIter σ) (List Char) :=
  { parse_iter := fun ctx start =>
      match p.parse_iter ctx start with
      | (some it, ctx1) => (some ⟨ctx1.source, start, it⟩, ctx1)
      | (none, ctx1) => (none, ctx1)
    match_end := fun it => p.match_end it.iter
    backtrack := fun it ctx =>
      match p.backtrack it.iter ctx with
      | (some it', ctx1) => (some { it with iter := it' }, ctx1)
      | (none, ctx1) => (none, ctx1)
    convert := fun it => (it.source.drop it.start).take (p.match_end it.iter - it.start) }

/-- First tail match from sequence.rs: attempt the tail at each head end in
the head's order, backtracking the head on failure, with fuel for the
loop. -/
def first_tail_match {σh σt αh αt : Type} (hp : MParser σh αh) (tp : MParser σt αt) :
    Nat → σh → ParseContext → Option (Option (σh × σt) × ParseContext)
  | 0, _, _ => none
  | fuel + 1, hit, ctx =>
      match tp.parse_iter ctx (hp.match_end hit) with
      | (some tit, ctx1) => some (some (hit, tit), ctx1)
      | (none, ctx1) =>
          match hp.backtrack hit ctx1 with
          | (some hit', ctx2) => first_tail_match hp tp fuel hit' ctx2
          | (none, ctx2) => some (none, ctx2)

/-- SequenceParser from sequence.rs (the Concat/Pair output shaping is
collapsed to a pair; none of the claims concerns tuple flattening).
Matches head then tail contiguously; match_end is the tail's; backtrack
first backtracks the tail, and when the tail is exhausted backtracks the
head and rescans the tail. -/
def seqP {σh σt αh αt : Type} (fuel : Nat) (hp : MParser σh αh) (tp : MParser σt αt) :
    MParser (σh × σt) (αh × αt) :=
  { parse_iter := fun ctx start =>
      match hp.parse_iter ctx start with
      | (none, ctx1) => (none, ctx1)
      | (some hit, ctx1) =>
          match first_tail_match hp tp fuel hit ctx1 with
          | some (some (hit', tit), ctx2) => (some (hit', tit), ctx2)
          | some (none, ctx2) => (none, ctx2)
          | none => (none, ctx1)
    match_end := fun it => tp.match_end it.2
    backtrack := fun it ctx =>
      match tp.backtrack it.2 ctx with
      | (some tit', ctx1) => (some (it.1, tit'), ctx1)
      | (none, ctx1) =>
          match hp.backtrack it.1 ctx1 with
          | (none, ctx2) => (none, ctx2)
          | (some hit', ctx2) =>
              match first_tail_match hp tp fuel hit' ctx2 with
              | some (some (hit'', tit), ctx3) => (some (hit'', tit), ctx3)
              | some (none, ctx3) => (none, ctx3)
              | none => (none, ctx2)
    convert := fun it => (hp.convert it.1, tp.convert it.2) }

/-- Modelled from the spec: either.rs is not in the tree.  Ordered-choice
alternation (spec 4.4): the first branch is tried first; on backtrack the
remaining first-branch candidates are exhausted before the second branch
is started at the remembered start offset. -/
def altP {σa σb αa αb : Type} (a : MParser σa αa) (b : MParser σb αb) :
    MParser (Nat × (σa ⊕ σb)) (αa ⊕ αb) :=
  { parse_iter := fun ctx start =>
      match a.parse_iter ctx start with
      | (some ita, ctx1) => (some (start, Sum.inl ita), ctx1)
      | (none, ctx1) =>
          match b.parse_iter ctx1 start with
          | (some itb, ctx2) => (some (start, Sum.inr itb), ctx2)
          | (none, ctx2) => (none, ctx2)
    match_end := fun it =>
      match it.2 with
      | Sum.inl ita => a.match_end ita
      | Sum.inr itb => b.match_end itb
    backtrack := fun it ctx =>
      match it.2 with
      | Sum.inl ita =>
          match a.backtrack ita ctx with
          | (some ita', ctx1) => (some (it.1, Sum.inl ita'), ctx1)
          | (none, ctx1) =>
              match b.parse_iter ctx1 it.1 with
              | (some itb, ctx2) => (some (it.1, Sum.inr itb), ctx2)
              | (none, ctx2) => (none, ctx2)
      | Sum.inr itb =>
          match b.backtrack itb ctx with
          | (some itb', ctx1) => (some (it.1, Sum.inr itb'), ctx1)
          | (none, ctx1) => (none, ctx1)
    convert := fun it =>
      match it.2 with
      | Sum.inl ita => Sum.inl (a.convert ita)
      | Sum.inr itb => Sum.inr (b.convert itb) }

/-- Modelled from the spec: either.rs is not in the tree.  opt(p) tries p
first, then the empty match at the same offset (spec 4.4). -/
def optP {σ α : Type} (p : MParser σ α) : MParser (Nat × (σ ⊕ Unit)) (Option α) :=
  { parse_iter := fun ctx start =>
      match p.parse_iter ctx start with
      | (some it, ctx1) => (some (start, Sum.inl it), ctx1)
      | (none, ctx1) => (some (start, Sum.inr ()), ctx1)
    match_end := fun it =>
      match it.2 with
      | Sum.inl itp => p.match_end itp
      | Sum.inr _ => it.1
    backtrack := fun it ctx =>
      match it.2 with
      | Sum.inl itp =>
          match p.backtrack itp ctx with
          | (some itp', ctx1) => (some (it.1, Sum.inl itp'), ctx1)
          | (none, ctx1) => (some (it.1, Sum.inr ()), ctx1)
      | Sum.inr _ => (none, ctx)
    convert := fun it =>
      match it.2 with
      | Sum.inl itp => some (p.convert itp)
      | Sum.inr _ => none }

/-- Helper: does l start with pre (str::starts_with on the char-list
model). -/
def startsWithList : List Char → List Char → Bool
  | _, [] => true
  | [], _ :: _ => false
  | c :: l, d :: pre => c == d && startsWithList l pre

/-- Helper: does l end with suf (str::ends_with on the char-list model). -/
def endsWithList (l suf : List Char) : Bool :=
  startsWithList l.reverse suf.reverse

/-- Helper: index of the first occurrence of sub in l (str::find on the
char-list model). -/
def findSub (sub : List Char) : List Char → Option Nat
  | [] => if startsWithList [] sub then some 0 else none
  | c :: t =>
      if startsWithList (c :: t) sub then some 0
      else (findSub sub t).map (fun i => i + 1)

/-- The Region trait from lines.rs, as a record of its three operations. -/
structure RegionOps : Type where
  check_at_start : ParseContext → Nat → Option Unit × ParseContext
  find_end : ParseContext → Nat → Option (Nat × Nat) × ParseContext
  report_incomplete_match : ParseContext → Nat → ParseContext

/-- The Line region from lines.rs: a valid start is offset 0 or a position
right after a newline; the region ends at the next newline (interior end
before it, outer end after it) or at end of source; an empty region at
end of input is Expected("line"). -/
def lineRegion : RegionOps :=
  { check_at_start := fun ctx start =>
      if start = 0 || endsWithList (ctx.source.take start) ['\n'] then (some (), ctx)
      else (none, ctx.report { kind := .BadLineStart, location := start })
    find_end := fun ctx start =>
      match findSub ['\n'] (ctx.source.drop start) with
      | some offset => (some (start + offset, start + offset + 1), ctx)
      | none =>
          if start ≠ ctx.source.length then
            (some (ctx.source.length, ctx.source.length), ctx)
          else (none, ctx.error_expected ctx.source.length "line")
    report_incomplete_match := fun ctx stop =>
      ctx.report { kind := .LineExtra, location := stop } }

/-- The Section region from lines.rs: a valid start is offset 0, or a
prefix equal to a single newline, or a prefix ending in two newlines; the
region ends one past the first newline of the next blank line (outer end
two past it) or at end of source; an empty region at end of input is
Expected("section"). -/
def sectionRegion : RegionOps :=
  { check_at_start := fun ctx start =>
      if start = 0 || ctx.source.take start = ['\n']
          || endsWithList (ctx.source.take start) ['\n', '\n'] then
        (some (), ctx)
      else (none, ctx.report { kind := .BadSectionStart, location := start })
    find_end := fun ctx start =>
      match findSub ['\n', '\n'] (ctx.source.drop start) with
      | some index => (some (start + index + 1, start + index + 2), ctx)
      | none =>
          if start < ctx.source.length then
            (some (ctx.source.length, ctx.source.length), ctx)
          else (none, ctx.error_expected ctx.source.length "section")
    report_incomplete_match := fun ctx stop =>
      ctx.report { kind := .SectionExtra, location := stop } }

/-- Loop of match_fully from lines.rs: while the iterator does not cover
the whole (sliced) source, report an incomplete match at its end and
backtrack it.  Outer none is fuel exhaustion. -/
def matchFullyLoop {σ α : Type} (R : RegionOps) (p : MParser σ α) :
    Nat → σ → ParseContext → Option (Option σ × ParseContext)
  | 0, _, _ => none
  | fuel + 1, it, ctx =>
      if p.match_end it = ctx.source.length then some (some it, ctx)
      else
        match p.backtrack it (R.report_incomplete_match ctx (p.match_end it)) with
        | (none, ctx2) => some (none, ctx2)
        | (some it', ctx2) => matchFullyLoop R p fuel it' ctx2

/-- match_fully from lines.rs: start the sub-parser at offset 0 of the
sliced source and run the loop. -/
def match_fully {σ α : Type} (R : RegionOps) (p : MParser σ α) (fuel : Nat)
    (ctx : ParseContext) : Option (Option σ × ParseContext) :=
  match p.parse_iter ctx 0 with
  | (none, ctx1) => some (none, ctx1)
  | (some it, ctx1) => matchFullyLoop R p fuel it ctx1

/-- RegionParseIter from lines.rs: the inner iterator and the outer end. -/
structure RegionIter (σ : Type) : Type where
  iter : σ
  outer_end : Nat

/-- RegionParser from lines.rs: check the start, locate the region end,
sub-parse the interior through a nested context, and on success yield a
single candidate whose match_end is the outer end; backtrack always
reports exhaustion.  (Fuel exhaustion inside the sub-parse is collapsed
to failure.) -/
def regionP {σ α : Type} (fuel : Nat) (R : RegionOps) (p : MParser σ α) :
    MParser (RegionIter σ) α :=
  { parse_iter := fun ctx start =>
      match R.check_at_start ctx start with
      | (none, ctx1) => (none, ctx1)
      | (some _, ctx1) =>
          match R.find_end ctx1 start with
          | (none, ctx2) => (none, ctx2)
          | (some (inner_end, outer_end), ctx2) =>
              match ctx2.with_slice start inner_end (fun c =>
                  match match_fully R p fuel c with
                  | some r => r
                  | none => (none, c)) with
              | (some it, ctx3) => (some ⟨it, outer_end⟩, ctx3)
              | (none, ctx3) => (none, ctx3)
    match_end := fun it => it.outer_end
    backtrack := fun _ ctx => (none, ctx)
    convert := fun it => p.convert it.iter }

/-- The line combinator from lines.rs. -/
def lineP {σ α : Type} (fuel : Nat) (p : MParser σ α) : MParser (RegionIter σ) α :=
  regionP fuel lineRegion p

/-- The section combinator from lines.rs. -/
def sectionP {σ α : Type} (fuel : Nat) (p : MParser σ α) : MParser (RegionIter σ) α :=
  regionP fuel sectionRegion p

/-- Parameters of RepeatParser from repeat.rs (the pattern and separator
parsers are passed separately). -/
structure RepeatParams : Type where
  min : Nat
  max : Option Nat
  sep_is_terminator : Bool
deriving Repr, DecidableEq

/-- RepeatParser::check_repeat_count from repeat.rs, with count the total
number of pattern and separator matches combined. -/
def check_repeat_count (params : RepeatParams) (count : Nat) : Bool :=
  let expected_parity : Nat := if params.sep_is_terminator then 0 else 1
  let nmatches := (count + expected_parity) / 2
  (count == 0 || count % 2 == expected_parity)
    && params.min ≤ nmatches
    && match params.max with
       | none => true
       | some max => nmatches ≤ max

/-- State of RepeatParseIter from repeat.rs.  The Vec stacks of live
pattern and separator iterators are lists with the most recently pushed
iterator at the head. -/
structure RepeatState (σp σs : Type) : Type where
  start : Nat
  pattern_iters : List σp
  sep_iters : List σs

/-- RepeatParseIter::num_matches. -/
def RepeatState.num_matches {σp σs : Type} (st : RepeatState σp σs) : Nat :=
  st.pattern_iters.length + st.sep_iters.length

/-- RepeatParseIter::is_pattern_next: as many separators as patterns have
been matched, so a pattern is next. -/
def RepeatState.is_pattern_next {σp σs : Type} (st : RepeatState σp σs) : Bool :=
  st.pattern_iters.length == st.sep_iters.length

/-- RepeatParseIter::end: end position of what has been matched so far. -/
def RepeatState.stEnd {σp σs αp αs : Type} (pat : MParser σp αp) (sep : MParser σs αs)
    (st : RepeatState σp σs) : Nat :=
  if st.num_matches = 0 then st.start
  else if st.is_pattern_next then
    match st.sep_iters with
    | s :: _ => sep.match_end s
    | [] => st.start
  else
    match st.pattern_iters with
    | p :: _ => pat.match_end p
    | [] => st.start

/-- Internal state of RepeatParseIter::next from repeat.rs. -/
inductive Mode : Type where
  | BacktrackTopIter
  | Advance
  | Exhausted
  | YieldThenBacktrack
deriving Repr, DecidableEq

/-- RepeatParseIter::advance from repeat.rs: keep creating new pattern and
separator iterators, at the current end, until one of the two parsers
fails to match; the function returns the state and context at that
failure (advance never succeeds).  Outer none is fuel exhaustion. -/
def advance {σp σs αp αs : Type} (pat : MParser σp αp) (sep : MParser σs αs) :
    Nat → RepeatState σp σs → ParseContext →
      Option (RepeatState σp σs × ParseContext)
  | 0, _, _ => none
  | fuel + 1, st, ctx =>
      if st.is_pattern_next then
        match pat.parse_iter ctx (st.stEnd pat sep) with
        | (none, ctx1) => some (st, ctx1)
        | (some it, ctx1) =>
            let st1 := { st with pattern_iters := it :: st.pattern_iters }
            match sep.parse_iter ctx1 (st1.stEnd pat sep) with
            | (none, ctx2) => some (st1, ctx2)
            | (some its, ctx2) =>
                advance pat sep fuel { st1 with sep_iters := its :: st1.sep_iters } ctx2
      else
        match sep.parse_iter ctx (st.stEnd pat sep) with
        | (none, ctx2) => some (st, ctx2)
        | (some its, ctx2) =>
            advance pat sep fuel { st with sep_iters := its :: st.sep_iters } ctx2

/-- RepeatParseIter::next from repeat.rs: the mode machine.  The result is
some (some st, ctx) for Ok (a yielded configuration), some (none, ctx)
for Err(Reported) (exhaustion), and none when the fuel ran out. -/
def nextRep {σp σs αp αs : Type} (pat : MParser σp αp) (sep : MParser σs αs)
    (params : RepeatParams) :
    Nat → Mode → RepeatState σp σs → ParseContext →
      Option (Option (RepeatState σp σs) × ParseContext)
  | 0, _, _, _ => none
  | fuel + 1, Mode.BacktrackTopIter, st, ctx =>
      if st.num_matches = 0 then some (none, ctx)
      else if st.is_pattern_next then
        match st.sep_iters with
        | [] => some (none, ctx)
        | s0 :: rest =>
            match sep.backtrack s0 ctx with
            | (some s0', ctx1) =>
                nextRep pat sep params fuel Mode.Advance
                  { st with sep_iters := s0' :: rest } ctx1
            | (none, ctx1) => nextRep pat sep params fuel Mode.Exhausted st ctx1
      else
        match st.pattern_iters with
        | [] => some (none, ctx)
        | p0 :: rest =>
            match pat.backtrack p0 ctx with
            | (some p0', ctx1) =>
                nextRep pat sep params fuel Mode.Advance
                  { st with pattern_iters := p0' :: rest } ctx1
            | (none, ctx1) => nextRep pat sep params fuel Mode.Exhausted st ctx1
  | fuel + 1, Mode.Advance, st, ctx =>
      match advance pat sep fuel st ctx with
      | none => none
      | some (st1, ctx1) => nextRep pat sep params fuel Mode.YieldThenBacktrack st1 ctx1
  | fuel + 1, Mode.Exhausted, st, ctx =>
      let st1 :=
        if st.is_pattern_next then { st with sep_iters := st.sep_iters.tail }
        else { st with pattern_iters := st.pattern_iters.tail }
      nextRep pat sep params fuel Mode.YieldThenBacktrack st1 ctx
  | fuel + 1, Mode.YieldThenBacktrack, st, ctx =>
      if check_repeat_count params st.num_matches then some (some st, ctx)
      else nextRep pat sep params fuel Mode.BacktrackTopIter st ctx

/-- RepeatParser from repeat.rs as a parser value: parse_iter starts from
an empty state in Advance mode; backtrack runs the machine in
BacktrackTopIter mode; convert maps convert over the pattern iterators in
match order.  Fuel exhaustion inside parse_iter or backtrack is reported
as failure. -/
def repeatP {σp σs αp αs : Type} (fuel : Nat) (pat : MParser σp αp) (sep : MParser σs αs)
    (params : RepeatParams) : MParser (RepeatState σp σs) (List αp) :=
  { parse_iter := fun ctx start =>
      match nextRep pat sep params fuel Mode.Advance ⟨start, [], []⟩ ctx with
      | some (some st, ctx1) => (some st, ctx1)
      | some (none, ctx1) => (none, ctx1)
      | none => (none, ctx)
    match_end := fun st => st.stEnd pat sep
    backtrack := fun st ctx =>
      match nextRep pat sep params fuel Mode.BacktrackTopIter st ctx with
      | some (some st', ctx1) => (some st', ctx1)
      | some (none, ctx1) => (none, ctx1)
      | none => (none, ctx)
    convert := fun st => st.pattern_iters.reverse.map pat.convert }

/-- The star combinator from repeat.rs: repeat(pattern, empty(), 0, None, false). -/
def starP {σp αp : Type} (fuel : Nat) (pat : MParser σp αp) :
    MParser (RepeatState σp Nat) (List αp) :=
  repeatP fuel pat emptyP ⟨0, none, false⟩

/-- The plus combinator from repeat.rs: repeat(pattern, empty(), 1, None, false). -/
def plusP {σp αp : Type} (fuel : Nat) (pat : MParser σp αp) :
    MParser (RepeatState σp Nat) (List αp) :=
  repeatP fuel pat emptyP ⟨1, none, false⟩

/-- repeat_sep from repeat.rs: repeat(pattern, sep, 0, None, false). -/
def repeat_sepP {σp σs αp αs : Type} (fuel : Nat) (pat : MParser σp αp)
    (sep : MParser σs αs) : MParser (RepeatState σp σs) (List αp) :=
  repeatP fuel pat sep ⟨0, none, false⟩

/-- lines(p) from lines.rs: star(line(p)). -/
def linesP {σ α : Type} (rfuel fuel : Nat) (p : MParser σ α) :
    MParser (RepeatState (RegionIter σ) Nat) (List α) :=
  starP rfuel (lineP fuel p)

/-- sections(p) from lines.rs: star(section(p)). -/
def sectionsP {σ α : Type} (rfuel fuel : Nat) (p : MParser σ α) :
    MParser (RepeatState (RegionIter σ) Nat) (List α) :=
  starP rfuel (sectionP fuel p)

/-- Modelled from the spec: util.rs (the top-level parse entry point) is
not in the tree.  Loop of the driver (spec 6.2, 7): while the candidate
does not cover the whole source, offer ExtraUnparsed at the match end to
the foremost slot and backtrack.  Outer none is fuel exhaustion. -/
def parseLoop {σ α : Type} (p : MParser σ α) :
    Nat → σ → ParseContext → Option (Option σ × ParseContext)
  | 0, _, _ => none
  | fuel + 1, it, ctx =>
      if p.match_end it = ctx.source.length then some (some it, ctx)
      else
        match p.backtrack it (ctx.error_extra (p.match_end it)) with
        | (some it', ctx1) => parseLoop p fuel it' ctx1
        | (none, ctx1) => some (none, ctx1)

/-- Modelled from the spec: util.rs is not in the tree.  Top-level parse
(spec 6.2): run the parser at offset 0 on a fresh context; succeed only
with a candidate whose match_end equals the source length, converting
that candidate. -/
def parse {σ α : Type} (p : MParser σ α) (fuel : Nat) (src : List Char) : Option α :=
  match p.parse_iter (ParseContext.new src) 0 with
  | (none, _) => none
  | (some it, ctx1) =>
      match parseLoop p fuel it ctx1 with
      | some (some itF, _) => some (p.convert itF)
      | _ => none

/-- Structural invariant of RepeatParseIter stated by the asserts in
repeat.rs: pattern_iters.len() == (n+1)/2 and sep_iters.len() == n/2,
i.e. the stacks alternate starting with a pattern. -/
def RepeatState.wf {σp σs : Type} (st : RepeatState σp σs) : Prop :=
  st.sep_iters.length ≤ st.pattern_iters.length ∧
    st.pattern_iters.length ≤ st.sep_iters.length + 1

/-- The behaviour the spec ascribes to the match_fully loop, as a
relation: whenever the sub-parser's candidate does not cover the whole
slice, the region's incomplete-match error is recorded at the partial
end and the sub-parser is backtracked; this repeats until a candidate
covers the slice (success) or the sub-parser is exhausted (failure). -/
inductive MatchFullyRun {σ α : Type} (R : RegionOps) (p : MParser σ α) :
    σ → ParseContext → Option σ × ParseContext → Prop
  | done (it : σ) (ctx : ParseContext) (h : p.match_end it = ctx.source.length) :
      MatchFullyRun R p it ctx (some it, ctx)
  | step (it : σ) (ctx : ParseContext) (it' : σ) (ctx' : ParseContext)
      (r : Option σ × ParseContext)
      (h : p.match_end it ≠ ctx.source.length)
      (hb : p.backtrack it (R.report_incomplete_match ctx (p.match_end it)) = (some it', ctx'))
      (hr : MatchFullyRun R p it' ctx' r) : MatchFullyRun R p it ctx r
  | exhausted (it : σ) (ctx : ParseContext) (ctx' : ParseContext)
      (h : p.match_end it ≠ ctx.source.length)
      (hb : p.backtrack it (R.report_incomplete_match ctx (p.match_end it)) = (none, ctx')) :
      MatchFullyRun R p it ctx (none, ctx')

/-- A complete chain of first-candidate matches of a deterministic pattern:
starting at pos, f yields the listed iterators one after another, each
new attempt starting at the end of the previous match, until f fails. -/
inductive DetChain {σ : Type} (f : Nat → Option σ) (endOf : σ → Nat) :
    Nat → List σ → Prop
  | nil (pos : Nat) (h : f pos = none) : DetChain f endOf pos []
  | cons (pos : Nat) (it : σ) (l : List σ) (h : f pos = some it)
      (hl : DetChain f endOf (endOf it) l) : DetChain f endOf pos (it :: l)

/-- The candidate ends an iterator offers, in order: its current end, then
the ends after each successful backtrack, stopping at exhaustion (or when
the count budget runs out). -/
def collectEnds {σ α : Type} (p : MParser σ α) :
    Nat → σ → ParseContext → List Nat
  | 0, it, _ => [p.match_end it]
  | cnt + 1, it, ctx =>
      p.match_end it ::
        (match p.backtrack it ctx with
         | (some it', ctx') => collectEnds p cnt it' ctx'
         | (none, _) => [])

/-- Current position of a reversed stack of deterministic-pattern
iterators: the end of the most recent match, or the repetition start for
the empty stack. -/
def stackPos {σ : Type} (endOf : σ → Nat) (start : Nat) : List σ → Nat
  | [] => start
  | it :: _ => endOf it

/-- A reversed stack of deterministic-pattern iterators rooted at start:
each entry is the unique first candidate of f at the position reached by
the entries below it. -/
inductive Stack {σ : Type} (f : Nat → Option σ) (endOf : σ → Nat) (start : Nat) :
    List σ → Prop
  | nil : Stack f endOf start []
  | cons (it : σ) (rl : List σ) (htail : Stack f endOf start rl)
      (h : f (stackPos endOf start rl) = some it) : Stack f endOf start (it :: rl)

/-- The chain of any_char iterators over a suffix of the source beginning
at pos: one iterator per character. -/
def anyCharChain : List Char → Nat → List CharIter
  | [], _ => []
  | c :: rest, pos => ⟨c, pos + 1⟩ :: anyCharChain rest (pos + 1)

end AocParse

namespace AocParse

lemma report_foremost_none (ctx : ParseContext) (err : ParseError)
    (h : ctx.foremost_error = none) : (ctx.report err).foremost_error = some err := by
  unfold ParseContext.report
  rw [h]

lemma report_foremost_lt (ctx : ParseContext) (err : ParseError) (e : ParseError)
    (h : ctx.foremost_error = some e) (hlt : e.location < err.location) :
    (ctx.report err).foremost_error = some err := by
  unfold ParseContext.report
  rw [h]
  simp [hlt]

lemma report_foremost_ge (ctx : ParseContext) (err : ParseError) (e : ParseError)
    (h : ctx.foremost_error = some e) (hge : err.location ≤ e.location) :
    ctx.report err = ctx := by
  unfold ParseContext.report
  rw [h]
  simp [Nat.not_lt.mpr hge]

lemma report_location_mono (ctx : ParseContext) (err : ParseError) (e : ParseError)
    (h : ctx.foremost_error = some e) :
    ∃ e', (ctx.report err).foremost_error = some e' ∧ e.location ≤ e'.location := by
  unfold ParseContext.report
  rw [h]
  by_cases hlt : e.location < err.location
  · exact ⟨err, by simp [hlt], Nat.le_of_lt hlt⟩
  · exact ⟨e, by simp [hlt, h], Nat.le_refl _⟩

lemma reports_location_mono (errs : List ParseError) (ctx : ParseContext) (e : ParseError)
    (h : ctx.foremost_error = some e) :
    ∃ e', (errs.foldl ParseContext.report ctx).foremost_error = some e' ∧
      e.location ≤ e'.location := by
  induction errs generalizing ctx e with
  | nil => exact ⟨e, h, Nat.le_refl _⟩
  | cons err rest ih =>
      obtain ⟨e1, he1, hle1⟩ := report_location_mono ctx err e h
      obtain ⟨e', he', hle'⟩ := ih (ctx.report err) e1 he1
      exact ⟨e', he', Nat.le_trans hle1 hle'⟩

/-- C1: ParseContext::report(err) stores err as the new foremost error iff
err.location is strictly greater than the stored error's location (or no
error is stored yet); on a tie or a smaller location the stored error is
unchanged; consequently, over any sequence of report calls, the stored
error's location never decreases. -/
theorem c1_report_foremost_spec :
    (∀ (ctx : ParseContext) (err : ParseError),
        ctx.foremost_error = none → (ctx.report err).foremost_error = some err) ∧
    (∀ (ctx : ParseContext) (err e : ParseError),
        ctx.foremost_error = some e → e.location < err.location →
          (ctx.report err).foremost_error = some err) ∧
    (∀ (ctx : ParseContext) (err e : ParseError),
        ctx.foremost_error = some e → err.location ≤ e.location →
          ctx.report err = ctx) ∧
    (∀ (errs : List ParseError) (ctx : ParseContext) (e : ParseError),
        ctx.foremost_error = some e →
          ∃ e', (errs.foldl ParseContext.report ctx).foremost_error = some e' ∧
            e.location ≤ e'.location) :=
  ⟨report_foremost_none, report_foremost_lt, report_foremost_ge, reports_location_mono⟩

/-- Witness for C1 at concrete inputs. -/
theorem c1_report_foremost_spec_witness :
    (ParseContext.report ⟨[], none⟩ ⟨.ExtraUnparsed, 2⟩).foremost_error
        = some ⟨.ExtraUnparsed, 2⟩ ∧
    (ParseContext.report ⟨[], some ⟨.LineExtra, 1⟩⟩ ⟨.ExtraUnparsed, 2⟩).foremost_error
        = some ⟨.ExtraUnparsed, 2⟩ ∧
    ParseContext.report ⟨[], some ⟨.LineExtra, 2⟩⟩ ⟨.ExtraUnparsed, 2⟩
        = ⟨[], some ⟨.LineExtra, 2⟩⟩ ∧
    ∃ e', (([⟨.ExtraUnparsed, 1⟩] : List ParseError).foldl ParseContext.report
        ⟨[], some ⟨.LineExtra, 2⟩⟩).foremost_error = some e' ∧ 2 ≤ e'.location := by
  refine ⟨c1_report_foremost_spec.1 _ _ rfl,
    c1_report_foremost_spec.2.1 _ _ ⟨.LineExtra, 1⟩ rfl (by decide),
    c1_report_foremost_spec.2.2.1 _ _ ⟨.LineExtra, 2⟩ rfl (by decide),
    c1_report_foremost_spec.2.2.2 [⟨.ExtraUnparsed, 1⟩] _ ⟨.LineExtra, 2⟩ rfl⟩

/-- C4: a stopping configuration with n total matches (patterns and
separators combined) is accepted by check_repeat_count iff n = 0 (which
requires min = 0), or the pattern count (n/2 rounded up by parity) lies
in [min, max] and n's parity matches the mode: odd n (ending on a
pattern) when sep_is_terminator is false, even n (ending on a separator)
when it is true. -/
theorem c4_check_repeat_count_spec (params : RepeatParams) (n : Nat) :
    check_repeat_count params n = true ↔
      (n = 0 ∧ params.min = 0) ∨
      (n % 2 = (if params.sep_is_terminator then 0 else 1) ∧
        params.min ≤ (n + n % 2) / 2 ∧
        ∀ m, params.max = some m → (n + n % 2) / 2 ≤ m) := by
  obtain ⟨mn, mx, t⟩ := params
  unfold check_repeat_count
  cases t <;> cases mx <;>
    simp [Bool.and_eq_true, Bool.or_eq_true, beq_iff_eq, decide_eq_true_eq] <;>
    omega

lemma startsWithList_iff (s : List Char) : ∀ l : List Char,
    startsWithList l s = true ↔ ∃ t, l = s ++ t := by
  induction s with
  | nil =>
      intro l
      simp [startsWithList]
  | cons d pre ih =>
      intro l
      cases l with
      | nil => simp [startsWithList]
      | cons c l' =>
          simp only [startsWithList, Bool.and_eq_true, beq_iff_eq, ih l']
          constructor
          · rintro ⟨rfl, t, rfl⟩
            exact ⟨t, rfl⟩
          · rintro ⟨t, h⟩
            simp only [List.cons_append, List.cons.injEq] at h
            exact ⟨h.1, t, h.2⟩

lemma endsWithList_iff (l s : List Char) :
    endsWithList l s = true ↔ ∃ pre, l = pre ++ s := by
  unfold endsWithList
  rw [startsWithList_iff]
  constructor
  · rintro ⟨t, h⟩
    refine ⟨t.reverse, ?_⟩
    have := congrArg List.reverse h
    simpa [List.reverse_append] using this
  · rintro ⟨pre, rfl⟩
    exact ⟨pre.reverse, by simp [List.reverse_append]⟩

lemma findSub_some_spec (sub : List Char) : ∀ (l : List Char) (i : Nat),
    findSub sub l = some i →
      startsWithList (l.drop i) sub = true ∧
        ∀ j, j < i → startsWithList (l.drop j) sub = false := by
  intro l
  induction l with
  | nil =>
      intro i h
      unfold findSub at h
      by_cases hs : startsWithList [] sub = true
      · simp [hs] at h
        subst h
        exact ⟨hs, by omega⟩
      · simp [hs] at h
  | cons c t ih =>
      intro i h
      unfold findSub at h
      by_cases hs : startsWithList (c :: t) sub = true
      · simp [hs] at h
        subst h
        exact ⟨hs, by omega⟩
      · simp [hs] at h
        obtain ⟨i', hi', rfl⟩ := h
        obtain ⟨h1, h2⟩ := ih i' hi'
        refine ⟨h1, ?_⟩
        intro j hj
        cases j with
        | zero => simpa using (Bool.not_eq_true _).mp hs
        | succ j' => exact h2 j' (by omega)

lemma findSub_none_spec (sub : List Char) : ∀ l : List Char,
    findSub sub l = none → ∀ j, startsWithList (l.drop j) sub = false := by
  intro l
  induction l with
  | nil =>
      intro h j
      unfold findSub at h
      by_cases hs : startsWithList [] sub = true
      · simp [hs] at h
      · simpa using (Bool.not_eq_true _).mp hs
  | cons c t ih =>
      intro h j
      unfold findSub at h
      by_cases hs : startsWithList (c :: t) sub = true
      · simp [hs] at h
      · simp [hs] at h
        cases j with
        | zero => simpa using (Bool.not_eq_true _).mp hs
        | succ j' => exact ih h j'

/-- C6 counterexample: in source "a\nb", offset 2 is immediately after a
newline, yet the section start check fails there, recording
BadSectionStart: the code accepts an inner start only when the whole
prefix is exactly one newline or ends in two newlines. -/
theorem c6_counterexample :
    (sectionRegion.check_at_start (ParseContext.new ['a', '\n', 'b']) 2).1 = none ∧
    (sectionRegion.check_at_start (ParseContext.new ['a', '\n', 'b']) 2).2.foremost_error
      = some ⟨.BadSectionStart, 2⟩ ∧
    ['a', '\n', 'b'].get? 1 = some '\n' := by decide

/-- C6 amended: the section start check succeeds exactly when start is
byte 0, or the prefix before start is exactly one newline, or the prefix
before start ends with two newlines; for every other start it fails,
recording BadSectionStart at start. -/
theorem c6_amended_check_at_start (ctx : ParseContext) (start : Nat) :
    ((sectionRegion.check_at_start ctx start).1 = some () ↔
      (start = 0 ∨ ctx.source.take start = ['\n'] ∨
        ∃ pre, ctx.source.take start = pre ++ ['\n', '\n'])) ∧
    ((sectionRegion.check_at_start ctx start).1 = none →
      sectionRegion.check_at_start ctx start
        = (none, ctx.report ⟨.BadSectionStart, start⟩)) := by
  unfold sectionRegion
  simp only []
  by_cases h : (start = 0 ∨ ctx.source.take start = ['\n'] ∨
      ∃ pre, ctx.source.take start = pre ++ ['\n', '\n'])
  · have hb : (decide (start = 0) || decide (ctx.source.take start = ['\n'])
        || endsWithList (ctx.source.take start) ['\n', '\n']) = true := by
      rcases h with h | h | h
      · simp [h]
      · simp [h]
      · simp [(endsWithList_iff _ _).mpr h]
    simp [hb, h]
  · have hb : (decide (start = 0) || decide (ctx.source.take start = ['\n'])
        || endsWithList (ctx.source.take start) ['\n', '\n']) = false := by
      push_neg at h
      obtain ⟨h1, h2, h3⟩ := h
      have he : endsWithList (ctx.source.take start) ['\n', '\n'] = false := by
        rcases hbe : endsWithList (ctx.source.take start) ['\n', '\n'] with _ | _
        · rfl
        · obtain ⟨pre, hpre⟩ := (endsWithList_iff _ _).mp hbe
          exact absurd hpre (h3 pre)
      simp [h1, h2, he]
    simp [hb, h]

/-- C6 amended, witness: at source "a\n\nb" offset 3 (right after a blank
line) the start check succeeds. -/
theorem c6_amended_check_at_start_witness :
    (sectionRegion.check_at_start (ParseContext.new ['a', '\n', '\n', 'b']) 3).1
      = some () :=
  (c6_amended_check_at_start (ParseContext.new ['a', '\n', '\n', 'b']) 3).1.mpr
    (Or.inr (Or.inr ⟨['a'], by decide⟩))

/-- C7 counterexample: in source "1\n2\n\n" from start 0, the first blank
line delimiter is at index 3, so the claim puts the interior end at 3
(excluding the whole delimiter), but the code returns interior end 4:
the interior keeps the first newline of the delimiter pair. -/
theorem c7_counterexample :
    (sectionRegion.find_end (ParseContext.new ['1', '\n', '2', '\n', '\n']) 0).1
      = some (4, 5) ∧
    findSub ['\n', '\n'] ['1', '\n', '2', '\n', '\n'] = some 3 ∧
    (4 : Nat) ≠ 3 := by decide

/-- C7 amended: when a blank-line delimiter occurs at (least) relative
index i at or after start, the interior runs from start through the
first newline of the delimiter (interior end start+i+1) and the outer
end is start+i+2; with no delimiter and start < source length both ends
are the source length; and with start at the end of input the region
fails, recording Expected("section") at the source length. -/
theorem c7_amended_find_end (ctx : ParseContext) (start : Nat) :
    (∀ i, findSub ['\n', '\n'] (ctx.source.drop start) = some i →
        sectionRegion.find_end ctx start = (some (start + i + 1, start + i + 2), ctx) ∧
        startsWithList ((ctx.source.drop start).drop i) ['\n', '\n'] = true ∧
        ∀ j, j < i → startsWithList ((ctx.source.drop start).drop j) ['\n', '\n'] = false) ∧
    (findSub ['\n', '\n'] (ctx.source.drop start) = none → start < ctx.source.length →
        sectionRegion.find_end ctx start
          = (some (ctx.source.length, ctx.source.length), ctx)) ∧
    (findSub ['\n', '\n'] (ctx.source.drop start) = none → ¬ start < ctx.source.length →
        sectionRegion.find_end ctx start
          = (none, ctx.report ⟨.Expected "section", ctx.source.length⟩)) := by
  refine ⟨?_, ?_, ?_⟩
  · intro i hi
    obtain ⟨h1, h2⟩ := findSub_some_spec _ _ _ hi
    exact ⟨by simp [sectionRegion, hi], h1, h2⟩
  · intro hn hlt
    simp [sectionRegion, hn, hlt]
  · intro hn hlt
    simp [sectionRegion, hn, hlt, ParseContext.error_expected]

/-- C7 amended, witness: concrete delimiter case on "1\n2\n\n". -/
theorem c7_amended_find_end_witness :
    sectionRegion.find_end (ParseContext.new ['1', '\n', '2', '\n', '\n']) 0
      = (some (4, 5), ParseContext.new ['1', '\n', '2', '\n', '\n']) :=
  ((c7_amended_find_end (ParseContext.new ['1', '\n', '2', '\n', '\n']) 0).1 3
    (by decide)).1

/-- C3 counterexample: a sub-parse that records an error and then
succeeds: on exit the parent's foremost-error slot is left unchanged
(the child's recorded error is not offered to it). -/
theorem c3_counterexample :
    (ParseContext.with_slice ⟨['a', 'b', 'c', 'd'], none⟩ 1 3
        (fun c => (some (0 : Nat), c.report ⟨.Expected "x", 1⟩))).2.foremost_error
      = none ∧
    ((fun (c : ParseContext) => (some (0 : Nat), c.report ⟨.Expected "x", 1⟩))
        ⟨(['a', 'b', 'c', 'd'].drop 1).take 2, none⟩).2.foremost_error
      = some ⟨.Expected "x", 1⟩ := by decide

/-- C3 amended: the child context starts with an empty (independent)
foremost-error slot scoped to source[start..stop]; on exit, the child's
recorded error, with location translated by +start, is offered to the
parent's slot only when the sub-parse failed; when the sub-parse
succeeds the parent's slot is unchanged and child errors are
discarded. -/
theorem c3_amended_with_slice {T : Type} (ctx : ParseContext) (start stop : Nat)
    (f : ParseContext → Option T × ParseContext) :
    (({ source := (ctx.source.drop start).take (stop - start),
        foremost_error := none } : ParseContext).foremost_error = none) ∧
    (∀ t ctx', f ⟨(ctx.source.drop start).take (stop - start), none⟩ = (some t, ctx') →
        ctx.with_slice start stop f = (some t, ctx)) ∧
    (∀ ctx' e, f ⟨(ctx.source.drop start).take (stop - start), none⟩ = (none, ctx') →
        ctx'.foremost_error = some e →
        ctx.with_slice start stop f = (none, ctx.report ⟨e.kind, e.location + start⟩)) := by
  refine ⟨rfl, ?_, ?_⟩
  · intro t ctx' h
    unfold ParseContext.with_slice
    simp [h]
  · intro ctx' e h he
    unfold ParseContext.with_slice
    simp [h, he, ParseError.adjust_location]

/-- C3 amended, witness: a failing sub-parse propagates its recorded
error with the location translated by the region start. -/
theorem c3_amended_with_slice_witness :
    ParseContext.with_slice ⟨['a', 'b', 'c', 'd'], none⟩ 1 3
        (fun c => ((none : Option Nat), c.report ⟨.Expected "x", 1⟩))
      = (none, ParseContext.report ⟨['a', 'b', 'c', 'd'], none⟩ ⟨.Expected "x", 2⟩) :=
  (c3_amended_with_slice ⟨['a', 'b', 'c', 'd'], none⟩ 1 3
      (fun c => ((none : Option Nat), c.report ⟨.Expected "x", 1⟩))).2.2
    (ParseContext.report ⟨['b', 'c'], none⟩ ⟨.Expected "x", 1⟩) ⟨.Expected "x", 1⟩
    rfl rfl

lemma parseLoop_mapP {σ α β : Type} (p : MParser σ α) (f : α → β) :
    ∀ (fuel : Nat) (it : σ) (ctx : ParseContext),
      parseLoop (mapP p f) fuel it ctx = parseLoop p fuel it ctx := by
  intro fuel
  induction fuel with
  | zero => intro it ctx; rfl
  | succ n ih =>
      intro it ctx
      unfold parseLoop
      by_cases h : p.match_end it = ctx.source.length
      · simp [mapP, h]
      · simp only [mapP, h, if_neg h]
        cases hb : p.backtrack it (ctx.error_extra (p.match_end it)) with
        | mk o c =>
            cases o with
            | none => simp
            | some it' => simpa using ih it' c

/-- C8: map(P, f) has exactly the matching behaviour of P, independent of
f: parse_iter, match_end and backtrack (and hence all candidate ends and
all errors recorded in the context) are those of P, identical for any
two mappers f and g; f is applied only at conversion time, once per
matched instance, so the whole parse of map(P, f) is the parse of P with
f applied to the final value, and f never runs on discarded branches. -/
theorem c8_map_spec {σ α β γ : Type} (p : MParser σ α) (f : α → β) (g : α → γ) :
    (mapP p f).parse_iter = p.parse_iter ∧
    (mapP p f).match_end = p.match_end ∧
    (mapP p f).backtrack = p.backtrack ∧
    ((mapP p f).parse_iter = (mapP p g).parse_iter ∧
      (mapP p f).match_end = (mapP p g).match_end ∧
      (mapP p f).backtrack = (mapP p g).backtrack) ∧
    (∀ it, (mapP p f).convert it = f (p.convert it)) ∧
    (∀ fuel src, parse (mapP p f) fuel src = Option.map f (parse p fuel src)) := by
  refine ⟨rfl, rfl, rfl, ⟨rfl, rfl, rfl⟩, fun it => rfl, ?_⟩
  intro fuel src
  unfold parse
  cases hpi : p.parse_iter (ParseContext.new src) 0 with
  | mk o c =>
      cases o with
      | none => simp [mapP, hpi]
      | some it =>
          simp only [mapP, hpi]
          rw [show (MParser.mk p.parse_iter p.match_end p.backtrack
              (fun it => f (p.convert it)) : MParser σ β)
            = mapP p f from rfl, parseLoop_mapP]
          cases hl : parseLoop p fuel it c with
          | none => simp
          | some r =>
              cases r with
              | mk o2 c2 =>
                  cases o2 with
                  | none => simp
                  | some itF => simp [mapP]

lemma matchFullyLoop_runs {σ α : Type} (R : RegionOps) (p : MParser σ α) :
    ∀ (fuel : Nat) (it : σ) (ctx : ParseContext) (r : Option σ × ParseContext),
      matchFullyLoop R p fuel it ctx = some r → MatchFullyRun R p it ctx r := by
  intro fuel
  induction fuel with
  | zero => intro it ctx r h; exact absurd h (by simp [matchFullyLoop])
  | succ n ih =>
      intro it ctx r h
      unfold matchFullyLoop at h
      by_cases hend : p.match_end it = ctx.source.length
      · simp only [hend, if_pos rfl] at h
        cases h
        exact MatchFullyRun.done it ctx hend
      · simp only [if_neg hend] at h
        cases hb : p.backtrack it (R.report_incomplete_match ctx (p.match_end it)) with
        | mk o c =>
            cases o with
            | none =>
                rw [hb] at h
                simp at h
                cases h
                exact MatchFullyRun.exhausted it ctx c hend hb
            | some it' =>
                rw [hb] at h
                simp at h
                exact MatchFullyRun.step it ctx it' c r hend hb (ih it' c r h)

lemma runs_success_full {σ α : Type} (R : RegionOps) (p : MParser σ α) :
    ∀ (it : σ) (ctx : ParseContext) (r : Option σ × ParseContext),
      MatchFullyRun R p it ctx r →
        ∀ (out : σ) (ctx2 : ParseContext), r = (some out, ctx2) →
          p.match_end out = ctx2.source.length := by
  intro it ctx r h
  induction h with
  | done it1 ctx1 h1 =>
      intro out ctx2 he
      obtain ⟨h2, h3⟩ := Prod.mk.injEq .. ▸ he
      cases h2
      cases h3
      exact h1
  | step it1 ctx1 it' ctx' r1 h1 hb hr ih => exact ih
  | exhausted it1 ctx1 ctx' h1 hb =>
      intro out ctx2 he
      exact absurd he (by simp)

/-- C2: the region sub-parse loop repeatedly runs the sub-parser against
the interior slice, recording LineExtra / SectionExtra at each
partial-match end and backtracking until the sub-parser covers the full
slice or is exhausted (region parse failure); on success the region
parser's single candidate has match_end equal to the region's outer end
from find_end, and its backtrack always reports exhaustion. -/
theorem c2_region_parser_spec {σ α : Type} (R : RegionOps) (p : MParser σ α) (fuel : Nat) :
    (∀ it ctx r, matchFullyLoop R p fuel it ctx = some r → MatchFullyRun R p it ctx r) ∧
    (∀ it ctx out ctx2, MatchFullyRun R p it ctx (some out, ctx2) →
        p.match_end out = ctx2.source.length) ∧
    (∀ stop ctx, lineRegion.report_incomplete_match ctx stop
        = ctx.report ⟨.LineExtra, stop⟩) ∧
    (∀ stop ctx, sectionRegion.report_incomplete_match ctx stop
        = ctx.report ⟨.SectionExtra, stop⟩) ∧
    (∀ ctx start it ctx3, (regionP fuel R p).parse_iter ctx start = (some it, ctx3) →
        (regionP fuel R p).match_end it = it.outer_end ∧
        ∃ ctx1 ctx2 inner_end it0 ctxI innerCtx,
          R.check_at_start ctx start = (some (), ctx1) ∧
          R.find_end ctx1 start = (some (inner_end, it.outer_end), ctx2) ∧
          ctx3 = ctx2 ∧
          p.parse_iter ⟨(ctx2.source.drop start).take (inner_end - start), none⟩ 0
            = (some it0, ctxI) ∧
          MatchFullyRun R p it0 ctxI (some it.iter, innerCtx)) ∧
    (∀ it ctx, (regionP fuel R p).backtrack it ctx = (none, ctx)) := by
  refine ⟨matchFullyLoop_runs R p fuel, ?_, fun _ _ => rfl, fun _ _ => rfl, ?_, fun _ _ => rfl⟩
  · intro it ctx out ctx2 h
    exact runs_success_full R p it ctx _ h out ctx2 rfl
  · intro ctx start it ctx3 h
    refine ⟨rfl, ?_⟩
    unfold regionP at h
    simp only [] at h
    cases hc : R.check_at_start ctx start with
    | mk o1 ctx1 =>
        rw [hc] at h
        cases o1 with
        | none => simp at h
        | some u =>
            cases u
            simp only [] at h
            cases hf : R.find_end ctx1 start with
            | mk o2 ctx2 =>
                rw [hf] at h
                cases o2 with
                | none => simp at h
                | some pr =>
                    obtain ⟨inner_end, outer_end⟩ := pr
                    simp only [] at h
                    unfold ParseContext.with_slice at h
                    simp only [] at h
                    cases hmf : match_fully R p fuel
                        ⟨(ctx2.source.drop start).take (inner_end - start), none⟩ with
                    | none =>
                        rw [hmf] at h
                        simp at h
                    | some rr =>
                        rw [hmf] at h
                        cases rr with
                        | mk o3 innerCtx =>
                            cases o3 with
                            | none =>
                                cases hfe : innerCtx.foremost_error with
                                | none => rw [hfe] at h; simp at h
                                | some e => rw [hfe] at h; simp at h
                            | some it0F =>
                                simp only [] at h
                                have h1 : (⟨it0F, outer_end⟩ : RegionIter σ) = it :=
                                  Option.some.inj (congrArg Prod.fst h)
                                have h2 : ctx3 = ctx2 := (congrArg Prod.snd h).symm
                                subst h1
                                unfold match_fully at hmf
                                cases hpi : p.parse_iter
                                    (ParseContext.mk
                                      ((ctx2.source.drop start).take (inner_end - start)) none)
                                    0 with
                                | mk o0 ctxI =>
                                    rw [hpi] at hmf
                                    cases o0 with
                                    | none => simp at hmf
                                    | some it0 =>
                                        simp only [] at hmf
                                        exact ⟨ctx1, ctx2, inner_end, it0, ctxI, innerCtx,
                                          rfl, hf, h2, hpi,
                                          matchFullyLoop_runs R p fuel it0 ctxI _ hmf⟩

/-- C2 witness: the region iterator of line(exact "h") on source "h\n"
has outer end 2 and its backtrack reports exhaustion. -/
theorem c2_region_parser_spec_witness :
    (regionP 10 lineRegion (exactP ['h'])).backtrack ⟨1, 2⟩ (ParseContext.new ['h', '\n'])
      = (none, ParseContext.new ['h', '\n']) :=
  (c2_region_parser_spec lineRegion (exactP ['h']) 10).2.2.2.2.2 ⟨1, 2⟩
    (ParseContext.new ['h', '\n'])

lemma check_repeat_count_zero (params : RepeatParams) (hmin : params.min = 0) :
    check_repeat_count params 0 = true := by
  obtain ⟨mn, mx, t⟩ := params
  cases t <;> cases mx <;> simp_all [check_repeat_count]

lemma advance_wf {σp σs αp αs : Type} (pat : MParser σp αp) (sep : MParser σs αs) :
    ∀ (fuel : Nat) (st : RepeatState σp σs) (ctx : ParseContext)
      (st' : RepeatState σp σs) (ctx' : ParseContext),
      st.wf → advance pat sep fuel st ctx = some (st', ctx') → st'.wf := by
  intro fuel
  induction fuel with
  | zero => intro st ctx st' ctx' hwf h; exact absurd h (by simp [advance])
  | succ n ih =>
      intro st ctx st' ctx' hwf h
      unfold advance at h
      by_cases hpn : st.is_pattern_next
      · rw [if_pos hpn] at h
        cases hpi : pat.parse_iter ctx (st.stEnd pat sep) with
        | mk o c =>
            rw [hpi] at h
            cases o with
            | none =>
                simp at h
                obtain ⟨h1, _⟩ := h
                exact h1 ▸ hwf
            | some it =>
                simp only [] at h
                have hps : st.pattern_iters.length = st.sep_iters.length := by
                  simpa [RepeatState.is_pattern_next] using hpn
                cases hsi : sep.parse_iter c
                    (RepeatState.stEnd pat sep
                      { st with pattern_iters := it :: st.pattern_iters }) with
                | mk o2 c2 =>
                    rw [hsi] at h
                    cases o2 with
                    | none =>
                        simp at h
                        obtain ⟨h1, _⟩ := h
                        subst h1
                        constructor <;> simp [RepeatState.wf] <;> omega
                    | some its =>
                        simp only [] at h
                        refine ih _ c2 st' ctx' ?_ h
                        constructor <;> simp [RepeatState.wf] <;> omega
      · rw [if_neg hpn] at h
        cases hsi : sep.parse_iter ctx (st.stEnd pat sep) with
        | mk o2 c2 =>
            rw [hsi] at h
            cases o2 with
            | none =>
                simp at h
                obtain ⟨h1, _⟩ := h
                exact h1 ▸ hwf
            | some its =>
                simp only [] at h
                have hps : st.pattern_iters.length ≠ st.sep_iters.length := by
                  intro he
                  exact hpn (by simp [RepeatState.is_pattern_next, he])
                obtain ⟨hw1, hw2⟩ := hwf
                refine ih _ c2 st' ctx' ?_ h
                constructor <;> simp [RepeatState.wf] <;> omega

lemma nextRep_no_err {σp σs αp αs : Type} (pat : MParser σp αp) (sep : MParser σs αs)
    (params : RepeatParams) (hmin : params.min = 0) :
    ∀ (fuel : Nat) (mode : Mode) (st : RepeatState σp σs) (ctx : ParseContext)
      (r : Option (RepeatState σp σs) × ParseContext),
      st.wf → (mode = Mode.BacktrackTopIter → st.num_matches ≠ 0) →
      nextRep pat sep params fuel mode st ctx = some r → r.1.isSome = true := by
  intro fuel
  induction fuel with
  | zero =>
      intro mode st ctx r hwf hmode h
      exact absurd h (by cases mode <;> simp [nextRep])
  | succ n ih =>
      intro mode st ctx r hwf hmode h
      cases mode with
      | BacktrackTopIter =>
          have hnum : st.num_matches ≠ 0 := hmode rfl
          unfold nextRep at h
          rw [if_neg hnum] at h
          by_cases hpn : st.is_pattern_next
          · rw [if_pos hpn] at h
            have hps : st.pattern_iters.length = st.sep_iters.length := by
              simpa [RepeatState.is_pattern_next] using hpn
            cases hsl : st.sep_iters with
            | nil =>
                exfalso
                apply hnum
                have : st.sep_iters.length = 0 := by rw [hsl]; rfl
                unfold RepeatState.num_matches
                omega
            | cons s0 rest =>
                rw [hsl] at h
                simp only [] at h
                cases hb : sep.backtrack s0 ctx with
                | mk ob cb =>
                    rw [hb] at h
                    cases ob with
                    | some s0' =>
                        refine ih Mode.Advance _ cb r ?_ (by simp) h
                        obtain ⟨hw1, hw2⟩ := hwf
                        constructor <;> simp_all [RepeatState.wf]
                    | none => exact ih Mode.Exhausted st cb r hwf (by simp) h
          · rw [if_neg hpn] at h
            have hps : st.pattern_iters.length ≠ st.sep_iters.length := by
              intro he
              exact hpn (by simp [RepeatState.is_pattern_next, he])
            cases hpl : st.pattern_iters with
            | nil =>
                exfalso
                obtain ⟨hw1, hw2⟩ := hwf
                have : st.pattern_iters.length = 0 := by rw [hpl]; rfl
                omega
            | cons p0 rest =>
                rw [hpl] at h
                simp only [] at h
                cases hb : pat.backtrack p0 ctx with
                | mk ob cb =>
                    rw [hb] at h
                    cases ob with
                    | some p0' =>
                        refine ih Mode.Advance _ cb r ?_ (by simp) h
                        obtain ⟨hw1, hw2⟩ := hwf
                        constructor <;> simp_all [RepeatState.wf]
                    | none => exact ih Mode.Exhausted st cb r hwf (by simp) h
      | Advance =>
          unfold nextRep at h
          cases ha : advance pat sep n st ctx with
          | none => rw [ha] at h; exact absurd h (by simp)
          | some pr =>
              rw [ha] at h
              obtain ⟨st1, ctx1⟩ := pr
              exact ih Mode.YieldThenBacktrack st1 ctx1 r
                (advance_wf pat sep n st ctx st1 ctx1 hwf ha) (by simp) h
      | Exhausted =>
          unfold nextRep at h
          by_cases hpn : st.is_pattern_next
          · rw [if_pos hpn] at h
            have hps : st.pattern_iters.length = st.sep_iters.length := by
              simpa [RepeatState.is_pattern_next] using hpn
            refine ih Mode.YieldThenBacktrack _ ctx r ?_ (by simp) h
            obtain ⟨hw1, hw2⟩ := hwf
            constructor <;> simp [RepeatState.wf, List.length_tail] <;> omega
          · rw [if_neg hpn] at h
            have hps : st.pattern_iters.length ≠ st.sep_iters.length := by
              intro he
              exact hpn (by simp [RepeatState.is_pattern_next, he])
            refine ih Mode.YieldThenBacktrack _ ctx r ?_ (by simp) h
            obtain ⟨hw1, hw2⟩ := hwf
            constructor <;> simp [RepeatState.wf, List.length_tail] <;> omega
      | YieldThenBacktrack =>
          unfold nextRep at h
          by_cases hchk : check_repeat_count params st.num_matches = true
          · rw [if_pos hchk] at h
            cases h
            simp
          · rw [if_neg hchk] at h
            refine ih Mode.BacktrackTopIter st ctx r hwf ?_ h
            intro _
            intro hz
            exact hchk (hz ▸ check_repeat_count_zero params hmin)

lemma nextRep_exhaust_at_zero {σp σs αp αs : Type} (pat : MParser σp αp)
    (sep : MParser σs αs) (params : RepeatParams) :
    ∀ (fuel : Nat) (st : RepeatState σp σs) (ctx : ParseContext),
      st.num_matches = 0 →
      nextRep pat sep params (fuel + 1) Mode.BacktrackTopIter st ctx = some (none, ctx) := by
  intro fuel st ctx hz
  unfold nextRep
  rw [if_pos hz]

/-- C10: for a repetition with min = 0 (star(P), repeat_sep(P, sep),
lines(P), sections(P)): when P fails at the start offset, parse_iter
still returns Ok with the zero-repetition candidate whose match_end is
the start (the pattern's failure lives only in the context); more
generally a completed run of the iterator machine started by parse_iter
never reports failure; and the iterator reports exhaustion only at the
zero-repetition configuration, whose match_end is the start. -/
theorem c10_repeat_min0_spec {σp σs αp αs : Type} (pat : MParser σp αp)
    (sep : MParser σs αs) (params : RepeatParams) (hmin : params.min = 0) :
    (∀ (ctx : ParseContext) (start g : Nat), (pat.parse_iter ctx start).1 = none →
        (repeatP (g + 2) pat sep params).parse_iter ctx start
          = (some ⟨start, [], []⟩, (pat.parse_iter ctx start).2) ∧
        (repeatP (g + 2) pat sep params).match_end ⟨start, [], []⟩ = start) ∧
    (∀ (fuel : Nat) (ctx : ParseContext) (start : Nat)
        (r : Option (RepeatState σp σs) × ParseContext),
        nextRep pat sep params fuel Mode.Advance ⟨start, [], []⟩ ctx = some r →
          r.1.isSome = true) ∧
    (∀ (fuel : Nat) (st : RepeatState σp σs) (ctx ctx' : ParseContext), st.wf →
        nextRep pat sep params fuel Mode.BacktrackTopIter st ctx = some (none, ctx') →
          st.num_matches = 0 ∧ ctx' = ctx ∧ st.stEnd pat sep = st.start) := by
  refine ⟨?_, ?_, ?_⟩
  · intro ctx start g hfail
    cases hpi : pat.parse_iter ctx start with
    | mk o c =>
        rw [hpi] at hfail
        cases o with
        | some it => simp at hfail
        | none =>
            constructor
            · show (match nextRep pat sep params (g + 2) Mode.Advance ⟨start, [], []⟩ ctx with
                | some (some st, ctx1) => (some st, ctx1)
                | some (none, ctx1) => (none, ctx1)
                | none => (none, ctx)) = (some ⟨start, [], []⟩, c)
              have hstep : nextRep pat sep params (g + 2) Mode.Advance ⟨start, [], []⟩ ctx
                  = some (some ⟨start, [], []⟩, c) := by
                show nextRep pat sep params ((g + 1) + 1) Mode.Advance ⟨start, [], []⟩ ctx
                  = some (some ⟨start, [], []⟩, c)
                unfold nextRep
                have hadv : advance pat sep (g + 1) ⟨start, [], []⟩ ctx
                    = some (⟨start, [], []⟩, c) := by
                  unfold advance
                  have hpn : RepeatState.is_pattern_next
                      (RepeatState.mk start ([] : List σp) ([] : List σs)) = true := rfl
                  rw [if_pos hpn]
                  have hse : RepeatState.stEnd pat sep
                      (RepeatState.mk start ([] : List σp) ([] : List σs)) = start := rfl
                  rw [hse, hpi]
                rw [hadv]
                show nextRep pat sep params (g + 1) Mode.YieldThenBacktrack ⟨start, [], []⟩ c
                  = some (some ⟨start, [], []⟩, c)
                unfold nextRep
                have hchk : check_repeat_count params
                    (RepeatState.mk start ([] : List σp) ([] : List σs)).num_matches
                    = true := check_repeat_count_zero params hmin
                rw [if_pos hchk]
              rw [hstep]
            · rfl
  · intro fuel ctx start r h
    exact nextRep_no_err pat sep params hmin fuel Mode.Advance ⟨start, [], []⟩ ctx r
      (by constructor <;> simp [RepeatState.wf]) (by simp) h
  · intro fuel st ctx ctx' hwf h
    have hz : st.num_matches = 0 := by
      by_contra hnz
      have := nextRep_no_err pat sep params hmin fuel Mode.BacktrackTopIter st ctx
        (none, ctx') hwf (fun _ => hnz) h
      simp at this
    refine ⟨hz, ?_, ?_⟩
    · cases fuel with
      | zero => exact absurd h (by simp [nextRep])
      | succ n =>
          unfold nextRep at h
          rw [if_pos hz] at h
          cases h
          rfl
    · unfold RepeatState.stEnd
      rw [if_pos hz]

lemma nextRep_advance_step {σp σs αp αs : Type} (pat : MParser σp αp) (sep : MParser σs αs)
    (params : RepeatParams) (k : Nat) (st st1 : RepeatState σp σs) (ctx ctx1 : ParseContext)
    (h : advance pat sep k st ctx = some (st1, ctx1)) :
    nextRep pat sep params (k + 1) Mode.Advance st ctx
      = nextRep pat sep params k Mode.YieldThenBacktrack st1 ctx1 := by
  conv_lhs => unfold nextRep
  rw [h]

lemma nextRep_yield_true {σp σs αp αs : Type} (pat : MParser σp αp) (sep : MParser σs αs)
    (params : RepeatParams) (k : Nat) (st : RepeatState σp σs) (ctx : ParseContext)
    (h : check_repeat_count params st.num_matches = true) :
    nextRep pat sep params (k + 1) Mode.YieldThenBacktrack st ctx = some (some st, ctx) := by
  conv_lhs => unfold nextRep
  rw [if_pos h]

lemma nextRep_yield_false {σp σs αp αs : Type} (pat : MParser σp αp) (sep : MParser σs αs)
    (params : RepeatParams) (k : Nat) (st : RepeatState σp σs) (ctx : ParseContext)
    (h : check_repeat_count params st.num_matches = false) :
    nextRep pat sep params (k + 1) Mode.YieldThenBacktrack st ctx
      = nextRep pat sep params k Mode.BacktrackTopIter st ctx := by
  conv_lhs => unfold nextRep
  rw [if_neg (by simp [h])]

lemma nextRep_backtrack_pat_step {σp σs αp αs : Type} (pat : MParser σp αp)
    (sep : MParser σs αs) (params : RepeatParams) (k s0 : Nat) (p0 : σp)
    (prest : List σp) (seps : List σs) (ctx cb : ParseContext)
    (hnum : (RepeatState.mk s0 (p0 :: prest) seps).num_matches ≠ 0)
    (hpn : (RepeatState.mk s0 (p0 :: prest) seps).is_pattern_next = false)
    (hb : pat.backtrack p0 ctx = (none, cb)) :
    nextRep pat sep params (k + 1) Mode.BacktrackTopIter ⟨s0, p0 :: prest, seps⟩ ctx
      = nextRep pat sep params k Mode.Exhausted ⟨s0, p0 :: prest, seps⟩ cb := by
  conv_lhs => unfold nextRep
  rw [if_neg hnum, if_neg (by simp [hpn])]
  simp only []
  rw [hb]

lemma nextRep_backtrack_sep_step {σp σs αp αs : Type} (pat : MParser σp αp)
    (sep : MParser σs αs) (params : RepeatParams) (k s0 : Nat) (pats : List σp)
    (sp0 : σs) (srest : List σs) (ctx cb : ParseContext)
    (hnum : (RepeatState.mk s0 pats (sp0 :: srest)).num_matches ≠ 0)
    (hpn : (RepeatState.mk s0 pats (sp0 :: srest)).is_pattern_next = true)
    (hb : sep.backtrack sp0 ctx = (none, cb)) :
    nextRep pat sep params (k + 1) Mode.BacktrackTopIter ⟨s0, pats, sp0 :: srest⟩ ctx
      = nextRep pat sep params k Mode.Exhausted ⟨s0, pats, sp0 :: srest⟩ cb := by
  conv_lhs => unfold nextRep
  rw [if_neg hnum, if_pos hpn]
  simp only []
  rw [hb]

lemma nextRep_exhausted_step_pat {σp σs αp αs : Type} (pat : MParser σp αp)
    (sep : MParser σs αs) (params : RepeatParams) (k s0 : Nat) (pats : List σp)
    (seps : List σs) (ctx : ParseContext)
    (hpn : (RepeatState.mk s0 pats seps).is_pattern_next = false) :
    nextRep pat sep params (k + 1) Mode.Exhausted ⟨s0, pats, seps⟩ ctx
      = nextRep pat sep params k Mode.YieldThenBacktrack ⟨s0, pats.tail, seps⟩ ctx := by
  conv_lhs => unfold nextRep
  rw [if_neg (by simp [hpn])]

lemma nextRep_exhausted_step_sep {σp σs αp αs : Type} (pat : MParser σp αp)
    (sep : MParser σs αs) (params : RepeatParams) (k s0 : Nat) (pats : List σp)
    (seps : List σs) (ctx : ParseContext)
    (hpn : (RepeatState.mk s0 pats seps).is_pattern_next = true) :
    nextRep pat sep params (k + 1) Mode.Exhausted ⟨s0, pats, seps⟩ ctx
      = nextRep pat sep params k Mode.YieldThenBacktrack ⟨s0, pats, seps.tail⟩ ctx := by
  conv_lhs => unfold nextRep
  rw [if_pos hpn]

lemma stEnd_stack_aligned {σ αp : Type} (pat : MParser σ αp) (start : Nat) (rl : List σ) :
    RepeatState.stEnd pat emptyP ⟨start, rl, rl.map pat.match_end⟩
      = stackPos pat.match_end start rl := by
  cases rl with
  | nil => rfl
  | cons it rs =>
      unfold RepeatState.stEnd
      rw [if_neg (by simp [RepeatState.num_matches])]
      rw [if_pos (by simp [RepeatState.is_pattern_next])]
      rfl

lemma stEnd_stack_yield {σ αp : Type} (pat : MParser σ αp) (start : Nat) (it : σ)
    (rs : List σ) :
    RepeatState.stEnd pat emptyP ⟨start, it :: rs, rs.map pat.match_end⟩
      = pat.match_end it := by
  unfold RepeatState.stEnd
  rw [if_neg (by simp [RepeatState.num_matches])]
  rw [if_neg (by simp [RepeatState.is_pattern_next])]

lemma det_advance_chain {σ αp : Type} (pat : MParser σ αp) (SRC : List Char)
    (f : Nat → Option σ) (start : Nat)
    (hpi : ∀ ctx s, ctx.source = SRC →
        (pat.parse_iter ctx s).1 = f s ∧ (pat.parse_iter ctx s).2.source = SRC) :
    ∀ (lrem : List σ) (pos : Nat), DetChain f pat.match_end pos lrem →
      ∀ (rl : List σ) (ctx : ParseContext) (fuel : Nat),
        stackPos pat.match_end start rl = pos → ctx.source = SRC →
        lrem.length + 1 ≤ fuel →
        ∃ ctx', advance pat emptyP fuel ⟨start, rl, rl.map pat.match_end⟩ ctx
            = some (⟨start, List.reverseAux lrem rl,
                (List.reverseAux lrem rl).map pat.match_end⟩, ctx')
          ∧ ctx'.source = SRC := by
  intro lrem pos hchain
  induction hchain with
  | nil pos hnone =>
      intro rl ctx fuel hpos hsrc hfuel
      obtain ⟨k, rfl⟩ : ∃ k, fuel = k + 1 := ⟨fuel - 1, by omega⟩
      refine ⟨(pat.parse_iter ctx pos).2, ?_, (hpi ctx pos hsrc).2⟩
      unfold advance
      rw [if_pos (by simp [RepeatState.is_pattern_next])]
      rw [stEnd_stack_aligned, hpos]
      have h1 : (pat.parse_iter ctx pos).1 = none := by
        rw [(hpi ctx pos hsrc).1, hnone]
      cases hp : pat.parse_iter ctx pos with
      | mk o c =>
          rw [hp] at h1
          subst h1
          rfl
  | cons pos it l hf htail ih =>
      intro rl ctx fuel hpos hsrc hfuel
      obtain ⟨k, rfl⟩ : ∃ k, fuel = k + 1 := ⟨fuel - 1, by omega⟩
      have h1 : (pat.parse_iter ctx pos).1 = some it := by
        rw [(hpi ctx pos hsrc).1, hf]
      cases hp : pat.parse_iter ctx pos with
      | mk o c =>
          rw [hp] at h1
          subst h1
          have hcs : c.source = SRC := by
            have := (hpi ctx pos hsrc).2
            rw [hp] at this
            exact this
          obtain ⟨ctx', hadv, hctx'⟩ := ih (it :: rl) c k rfl hcs (by simp at hfuel ⊢; omega)
          refine ⟨ctx', ?_, hctx'⟩
          unfold advance
          rw [if_pos (by simp [RepeatState.is_pattern_next])]
          rw [stEnd_stack_aligned, hpos, hp]
          simp only []
          rw [stEnd_stack_yield]
          show advance pat emptyP k ⟨start, it :: rl, (it :: rl).map pat.match_end⟩ c
            = some (⟨start, List.reverseAux l (it :: rl),
                (List.reverseAux l (it :: rl)).map pat.match_end⟩, ctx')
          exact hadv

lemma chain_to_stack {σ : Type} (f : Nat → Option σ) (e : σ → Nat) (start : Nat) :
    ∀ (lrem : List σ) (pos : Nat), DetChain f e pos lrem →
      ∀ rl : List σ, Stack f e start rl → stackPos e start rl = pos →
        Stack f e start (List.reverseAux lrem rl) ∧
          f (stackPos e start (List.reverseAux lrem rl)) = none := by
  intro lrem pos h
  induction h with
  | nil pos hnone =>
      intro rl hs hpos
      refine ⟨hs, ?_⟩
      show f (stackPos e start rl) = none
      rw [hpos]
      exact hnone
  | cons pos it l hf htail ih =>
      intro rl hs hpos
      exact ih (it :: rl) (Stack.cons it rl hs (by rw [hpos]; exact hf)) rfl

lemma check_even_false (params : RepeatParams) (hterm : params.sep_is_terminator = false)
    (k : Nat) (hk : k ≠ 0) (hk2 : k % 2 = 0) : check_repeat_count params k = false := by
  unfold check_repeat_count
  rw [hterm]
  have h1 : (k == 0 : Bool) = false := by simp [hk]
  have h2 : (k % 2 == 1 : Bool) = false := by simp [hk2]
  simp [h1, h2]

lemma check_odd_iff (params : RepeatParams) (hterm : params.sep_is_terminator = false)
    (hmax : params.max = none) (k : Nat) :
    check_repeat_count params (2 * k + 1) = true ↔ params.min ≤ k + 1 := by
  unfold check_repeat_count
  rw [hterm, hmax]
  have h2 : ((2 * k + 1) % 2 == 1 : Bool) = true := by simp [Nat.add_mul_mod_self_left]; omega
  have h3 : (2 * k + 1 + 1) / 2 = k + 1 := by omega
  simp [h2, h3]

lemma det_first_yield {σ αp : Type} (pat : MParser σ αp) (SRC : List Char)
    (f : Nat → Option σ) (start : Nat)
    (hpi : ∀ ctx s, ctx.source = SRC →
        (pat.parse_iter ctx s).1 = f s ∧ (pat.parse_iter ctx s).2.source = SRC)
    (params : RepeatParams) (hterm : params.sep_is_terminator = false)
    (hmax : params.max = none) :
    ∀ (L : List σ), DetChain f pat.match_end start L →
      ∀ (it0 : σ) (rs : List σ), L.reverse = it0 :: rs →
        params.min ≤ rs.length + 1 →
        ∀ (ctx : ParseContext) (fuel : Nat), ctx.source = SRC → L.length + 6 ≤ fuel →
          ∃ ctx', nextRep pat emptyP params fuel Mode.Advance ⟨start, [], []⟩ ctx
              = some (some ⟨start, it0 :: rs, rs.map pat.match_end⟩, ctx')
            ∧ ctx'.source = SRC
            ∧ Stack f pat.match_end start (it0 :: rs)
            ∧ f (pat.match_end it0) = none := by
  intro L hch it0 rs hrev hmin ctx fuel hsrc hfuel
  obtain ⟨k, rfl⟩ : ∃ k, fuel = k + 1 + 1 + 1 + 1 + 1 := ⟨fuel - 5, by omega⟩
  obtain ⟨ctx1, hadv, hctx1⟩ :=
    det_advance_chain pat SRC f start hpi L start hch [] ctx (k + 1 + 1 + 1 + 1)
      rfl hsrc (by omega)
  have hra : List.reverseAux L ([] : List σ) = it0 :: rs := by
    rw [List.reverseAux_eq]
    simpa using hrev
  rw [hra] at hadv
  have hstack : Stack f pat.match_end start (it0 :: rs) ∧
      f (stackPos pat.match_end start (it0 :: rs)) = none := by
    have h0 := chain_to_stack f pat.match_end start L start hch [] Stack.nil rfl
    rwa [hra] at h0
  have s1 := nextRep_advance_step pat emptyP params (k + 1 + 1 + 1 + 1)
    ⟨start, [], []⟩ ⟨start, it0 :: rs, (it0 :: rs).map pat.match_end⟩ ctx ctx1 hadv
  have s2 := nextRep_yield_false pat emptyP params (k + 1 + 1 + 1)
    ⟨start, it0 :: rs, pat.match_end it0 :: rs.map pat.match_end⟩ ctx1
    (by
      have hn : (RepeatState.mk start (it0 :: rs)
          (pat.match_end it0 :: rs.map pat.match_end)).num_matches
          = 2 * rs.length + 2 := by
        simp [RepeatState.num_matches]
        omega
      rw [hn]
      exact check_even_false params hterm _ (by omega) (by omega))
  have s3 := nextRep_backtrack_sep_step pat emptyP params (k + 1 + 1) start (it0 :: rs)
    (pat.match_end it0) (rs.map pat.match_end) ctx1 ctx1
    (by simp [RepeatState.num_matches])
    (by simp [RepeatState.is_pattern_next])
    rfl
  have s4 := nextRep_exhausted_step_sep pat emptyP params (k + 1) start (it0 :: rs)
    (pat.match_end it0 :: rs.map pat.match_end) ctx1
    (by simp [RepeatState.is_pattern_next])
  have s5 := nextRep_yield_true pat emptyP params k
    ⟨start, it0 :: rs, rs.map pat.match_end⟩ ctx1
    (by
      have hn : (RepeatState.mk start (it0 :: rs) (rs.map pat.match_end)).num_matches
          = 2 * rs.length + 1 := by
        simp [RepeatState.num_matches]
        omega
      rw [hn]
      exact (check_odd_iff params hterm hmax rs.length).mpr hmin)
  refine ⟨ctx1, ?_, hctx1, hstack.1, hstack.2⟩
  rw [s1]
  simp only [List.map_cons]
  rw [s2, s3, s4]
  simp only [List.tail_cons]
  rw [s5]

lemma det_backtrack_step {σ αp : Type} (pat : MParser σ αp) (SRC : List Char)
    (start : Nat)
    (hbt : ∀ (it : σ) (ctx : ParseContext), ctx.source = SRC →
        (pat.backtrack it ctx).1 = none ∧ (pat.backtrack it ctx).2.source = SRC)
    (params : RepeatParams) (hterm : params.sep_is_terminator = false)
    (hmax : params.max = none) (hmin0 : params.min = 0) :
    ∀ (it0 : σ) (rs : List σ) (ctx : ParseContext) (fuel : Nat),
      ctx.source = SRC → 7 ≤ fuel →
      ∃ ctx', nextRep pat emptyP params fuel Mode.BacktrackTopIter
          ⟨start, it0 :: rs, rs.map pat.match_end⟩ ctx
        = some (some ⟨start, rs, rs.tail.map pat.match_end⟩, ctx')
        ∧ ctx'.source = SRC := by
  intro it0 rs ctx fuel hsrc hfuel
  obtain ⟨k, rfl⟩ : ∃ k, fuel = k + 1 + 1 + 1 + 1 + 1 + 1 := ⟨fuel - 6, by omega⟩
  have hb1 : (pat.backtrack it0 ctx).1 = none := (hbt it0 ctx hsrc).1
  cases hb : pat.backtrack it0 ctx with
  | mk ob cb =>
      rw [hb] at hb1
      subst hb1
      have hcb : cb.source = SRC := by
        have h0 := (hbt it0 ctx hsrc).2
        rw [hb] at h0
        exact h0
      have s1 := nextRep_backtrack_pat_step pat emptyP params (k + 1 + 1 + 1 + 1 + 1)
        start it0 rs (rs.map pat.match_end) ctx cb
        (by simp [RepeatState.num_matches])
        (by simp [RepeatState.is_pattern_next])
        hb
      have s2 := nextRep_exhausted_step_pat pat emptyP params (k + 1 + 1 + 1 + 1)
        start (it0 :: rs) (rs.map pat.match_end) cb
        (by simp [RepeatState.is_pattern_next])
      cases rs with
      | nil =>
          have s3 := nextRep_yield_true pat emptyP params (k + 1 + 1 + 1)
            ⟨start, [], []⟩ cb
            (by
              have hn : (RepeatState.mk start ([] : List σ) ([] : List Nat)).num_matches
                  = 0 := rfl
              rw [hn]
              exact check_repeat_count_zero params hmin0)
          refine ⟨cb, ?_, hcb⟩
          rw [s1, s2]
          simp only [List.tail_cons, List.map_nil]
          exact s3
      | cons it1 rs2 =>
          have s3 := nextRep_yield_false pat emptyP params (k + 1 + 1 + 1)
            ⟨start, it1 :: rs2, pat.match_end it1 :: rs2.map pat.match_end⟩ cb
            (by
              have hn : (RepeatState.mk start (it1 :: rs2)
                  (pat.match_end it1 :: rs2.map pat.match_end)).num_matches
                  = 2 * rs2.length + 2 := by
                simp [RepeatState.num_matches]
                omega
              rw [hn]
              exact check_even_false params hterm _ (by omega) (by omega))
          have s4 := nextRep_backtrack_sep_step pat emptyP params (k + 1 + 1) start
            (it1 :: rs2) (pat.match_end it1) (rs2.map pat.match_end) cb cb
            (by simp [RepeatState.num_matches])
            (by simp [RepeatState.is_pattern_next])
            rfl
          have s5 := nextRep_exhausted_step_sep pat emptyP params (k + 1) start
            (it1 :: rs2) (pat.match_end it1 :: rs2.map pat.match_end) cb
            (by simp [RepeatState.is_pattern_next])
          have s6 := nextRep_yield_true pat emptyP params k
            ⟨start, it1 :: rs2, rs2.map pat.match_end⟩ cb
            (by
              have hn : (RepeatState.mk start (it1 :: rs2)
                  (rs2.map pat.match_end)).num_matches = 2 * rs2.length + 1 := by
                simp [RepeatState.num_matches]
                omega
              rw [hn]
              exact (check_odd_iff params hterm hmax rs2.length).mpr (by omega))
          refine ⟨cb, ?_, hcb⟩
          rw [s1, s2]
          simp only [List.tail_cons, List.map_cons]
          rw [s3, s4, s5]
          simp only [List.tail_cons]
          rw [s6]

lemma det_collect {σ αp : Type} (pat : MParser σ αp) (SRC : List Char)
    (f : Nat → Option σ) (start : Nat)
    (hbt : ∀ (it : σ) (ctx : ParseContext), ctx.source = SRC →
        (pat.backtrack it ctx).1 = none ∧ (pat.backtrack it ctx).2.source = SRC)
    (params : RepeatParams) (hterm : params.sep_is_terminator = false)
    (hmax : params.max = none) (hmin0 : params.min = 0)
    (F : Nat) (hF : 7 ≤ F) :
    ∀ (rl : List σ) (ctx : ParseContext) (cnt : Nat), Stack f pat.match_end start rl →
      ctx.source = SRC → rl.length + 1 ≤ cnt →
      collectEnds (repeatP F pat emptyP params) cnt
          ⟨start, rl, rl.tail.map pat.match_end⟩ ctx
        = rl.map pat.match_end ++ [start] := by
  intro rl
  induction rl with
  | nil =>
      intro ctx cnt _ hsrc hcnt
      obtain ⟨c, rfl⟩ : ∃ c, cnt = c + 1 := ⟨cnt - 1, by omega⟩
      obtain ⟨F1, rfl⟩ : ∃ F1, F = F1 + 1 := ⟨F - 1, by omega⟩
      have hbk : (repeatP (F1 + 1) pat emptyP params).backtrack ⟨start, [], []⟩ ctx
          = (none, ctx) := by
        unfold repeatP
        simp only []
        rw [nextRep_exhaust_at_zero pat emptyP params F1 ⟨start, [], []⟩ ctx rfl]
      unfold collectEnds
      simp only [List.tail_nil, List.map_nil]
      rw [hbk]
      rfl
  | cons it rs ih =>
      intro ctx cnt hst hsrc hcnt
      obtain ⟨c, rfl⟩ : ∃ c, cnt = c + 1 := ⟨cnt - 1, by omega⟩
      cases hst with
      | cons _ _ htail hfs =>
          obtain ⟨ctx', hbk0, hctx'⟩ := det_backtrack_step pat SRC start hbt params
            hterm hmax hmin0 it rs ctx (F) hsrc hF
          have hbk : (repeatP F pat emptyP params).backtrack
              ⟨start, it :: rs, rs.map pat.match_end⟩ ctx
              = (some ⟨start, rs, rs.tail.map pat.match_end⟩, ctx') := by
            unfold repeatP
            simp only []
            rw [hbk0]
          unfold collectEnds
          simp only [List.tail_cons]
          rw [hbk]
          simp only []
          rw [show (repeatP F pat emptyP params).match_end
              ⟨start, it :: rs, rs.map pat.match_end⟩ = pat.match_end it from
            stEnd_stack_yield pat start it rs]
          rw [ih ctx' c htail hctx' (by simp at hcnt ⊢; omega)]
          simp

lemma stack_pos_bound {σ : Type} (f : Nat → Option σ) (e : σ → Nat) (start : Nat)
    (hprog : ∀ s it, f s = some it → s < e it) :
    ∀ rl : List σ, Stack f e start rl →
      ∀ x ∈ rl.map e ++ [start], x ≤ stackPos e start rl := by
  intro rl h
  induction h with
  | nil =>
      intro x hx
      simp at hx
      simp [hx, stackPos]
  | cons it rl htail hf ih =>
      intro x hx
      show x ≤ e it
      simp only [List.map_cons, List.cons_append, List.mem_cons] at hx
      rcases hx with rfl | hx
      · exact Nat.le_refl _
      · exact Nat.le_of_lt (Nat.lt_of_le_of_lt (ih x hx) (hprog _ it hf))

lemma stack_ends_decreasing {σ : Type} (f : Nat → Option σ) (e : σ → Nat) (start : Nat)
    (hprog : ∀ s it, f s = some it → s < e it) :
    ∀ rl : List σ, Stack f e start rl →
      List.Pairwise (fun a b => b < a) (rl.map e ++ [start]) := by
  intro rl h
  induction h with
  | nil => simp
  | cons it rl htail hf ih =>
      simp only [List.map_cons, List.cons_append]
      refine List.Pairwise.cons ?_ ih
      intro x hx
      exact Nat.lt_of_le_of_lt (stack_pos_bound f e start hprog rl htail x hx)
        (hprog _ it hf)

lemma pairwise_filter_head_max :
    ∀ L : List Nat, List.Pairwise (fun a b => b < a) L →
      ∀ (Q : Nat → Bool) (h : Nat) (t : List Nat), L.filter Q = h :: t →
        ∀ x ∈ L, Q x = true → x ≤ h := by
  intro L
  induction L with
  | nil =>
      intro _ Q h t hf
      simp at hf
  | cons a L' ih =>
      intro hp Q h t hf x hx hQ
      obtain ⟨ha, hp'⟩ := List.pairwise_cons.mp hp
      by_cases hQa : Q a = true
      · rw [List.filter_cons_of_pos hQa] at hf
        have hha : h = a := (List.cons.injEq .. ▸ hf).1.symm
        subst hha
        rcases List.mem_cons.mp hx with rfl | hx'
        · exact Nat.le_refl _
        · exact Nat.le_of_lt (ha x hx')
      · rw [List.filter_cons_of_neg (by simpa using hQa)] at hf
        rcases List.mem_cons.mp hx with rfl | hx'
        · exact absurd hQ hQa
        · exact ih hp' Q h t hf x hx' hQ

lemma report_source (ctx : ParseContext) (e : ParseError) :
    (ctx.report e).source = ctx.source := by
  unfold ParseContext.report
  cases ctx.foremost_error with
  | none => rfl
  | some e0 =>
      by_cases hlt : e0.location < e.location
      · simp [hlt]
      · simp [hlt]

lemma any_char_det (SRC : List Char) :
    ∀ (ctx : ParseContext) (s : Nat), ctx.source = SRC →
      (any_char.parse_iter ctx s).1
          = ((SRC.drop s).head?).map (fun c => (⟨c, s + 1⟩ : CharIter)) ∧
        (any_char.parse_iter ctx s).2.source = SRC := by
  intro ctx s h
  unfold any_char charP
  simp only []
  cases hh : (ctx.source.drop s).head? with
  | none =>
      rw [h] at hh
      rw [← h]
      simp [hh, h, ParseContext.error_expected, report_source]
  | some c =>
      rw [h] at hh
      rw [← h]
      simp [hh, h]

lemma any_char_backtrack_det (SRC : List Char) :
    ∀ (it : CharIter) (ctx : ParseContext), ctx.source = SRC →
      (any_char.backtrack it ctx).1 = none ∧ (any_char.backtrack it ctx).2.source = SRC :=
  fun _ _ h => ⟨rfl, h⟩

lemma anyCharChain_det (SRC : List Char) :
    ∀ (suffix : List Char) (pos : Nat), SRC.drop pos = suffix →
      DetChain (fun s => ((SRC.drop s).head?).map (fun c => (⟨c, s + 1⟩ : CharIter)))
        any_char.match_end pos (anyCharChain suffix pos) := by
  intro suffix
  induction suffix with
  | nil =>
      intro pos hdrop
      exact DetChain.nil pos (by rw [hdrop]; rfl)
  | cons c rest ih =>
      intro pos hdrop
      show DetChain (fun s => ((SRC.drop s).head?).map (fun ch => (⟨ch, s + 1⟩ : CharIter)))
          any_char.match_end pos ((⟨c, pos + 1⟩ : CharIter) :: anyCharChain rest (pos + 1))
      refine DetChain.cons pos (⟨c, pos + 1⟩ : CharIter) (anyCharChain rest (pos + 1))
        (by rw [hdrop]; rfl) ?_
      have hdrop' : SRC.drop (pos + 1) = rest := by
        rw [← List.tail_drop, hdrop]
        rfl
      exact ih (pos + 1) hdrop'

lemma anyCharChain_length : ∀ (suffix : List Char) (pos : Nat),
    (anyCharChain suffix pos).length = suffix.length := by
  intro suffix
  induction suffix with
  | nil => intro pos; rfl
  | cons c rest ih =>
      intro pos
      simp [anyCharChain, ih]

lemma any_char_f_bound (SRC : List Char) :
    ∀ (s : Nat) (it : CharIter),
      ((SRC.drop s).head?).map (fun c => (⟨c, s + 1⟩ : CharIter)) = some it →
        any_char.match_end it = s + 1 ∧ s < SRC.length := by
  intro s it h
  cases hh : (SRC.drop s).head? with
  | none => rw [hh] at h; simp at h
  | some c =>
      rw [hh] at h
      simp at h
      refine ⟨by rw [← h]; rfl, ?_⟩
      by_contra hge
      have hge2 : SRC.length ≤ s := by omega
      rw [List.drop_eq_nil_of_le hge2] at hh
      simp at hh

lemma any_char_f_none (SRC : List Char) (s : Nat)
    (h : ((SRC.drop s).head?).map (fun c => (⟨c, s + 1⟩ : CharIter)) = none) :
    SRC.length ≤ s := by
  cases hh : (SRC.drop s).head? with
  | some c => rw [hh] at h; simp at h
  | none =>
      have : SRC.drop s = [] := List.head?_eq_none_iff.mp hh
      have hl := congrArg List.length this
      simp at hl
      omega

/-- C5 counterexample: for P = the ordered alternation of exact "a" and
exact "ab" (which enumerates its shorter candidate first), against the
input "ab" followed by an optional "b": the overall parse succeeds with
full match_end 2 while P* consumed only the prefix of length 1 — even
though 2 is also among P*'s candidate ends (its candidate ends are
[1, 2, 0]) and the continuation also matches to the end of input from 2.
So the successful overall parse does not consume the longest prefix that
satisfies P* and allows the overall parse to finish. -/
theorem c5_counterexample :
    ((seqP 20 (starP 20 (altP (exactP ['a']) (exactP ['a', 'b'])))
        (optP (exactP ['b']))).parse_iter (ParseContext.new ['a', 'b']) 0).1.isSome
      = true ∧
    Option.map (fun it => (seqP 20 (starP 20 (altP (exactP ['a']) (exactP ['a', 'b'])))
        (optP (exactP ['b']))).match_end it)
      ((seqP 20 (starP 20 (altP (exactP ['a']) (exactP ['a', 'b'])))
        (optP (exactP ['b']))).parse_iter (ParseContext.new ['a', 'b']) 0).1
      = some 2 ∧
    Option.map (fun it => (starP 20 (altP (exactP ['a']) (exactP ['a', 'b']))).match_end it.1)
      ((seqP 20 (starP 20 (altP (exactP ['a']) (exactP ['a', 'b'])))
        (optP (exactP ['b']))).parse_iter (ParseContext.new ['a', 'b']) 0).1
      = some 1 ∧
    (match (starP 20 (altP (exactP ['a']) (exactP ['a', 'b']))).parse_iter
        (ParseContext.new ['a', 'b']) 0 with
     | (some it, c1) => collectEnds (starP 20 (altP (exactP ['a']) (exactP ['a', 'b']))) 5 it c1
     | (none, _) => []) = [1, 2, 0] ∧
    Option.map (optP (exactP ['b'])).match_end
      ((optP (exactP ['b'])).parse_iter (ParseContext.new ['a', 'b']) 2).1 = some 2 ∧
    (1 : Nat) < 2 := by
  refine ⟨?_, ?_, ?_, ?_, ?_, ?_⟩ <;> decide

/-- C5 amended: the repetition iterator extends greedily and enumerates
stopping configurations in post-order by popping or backtracking the
last sub-iterator; for a pattern parser that is deterministic (a single
candidate per start, given by f) and progressing, star(P) yields its
candidate ends in strictly decreasing order — the full greedy chain
first, then one repetition fewer at each backtrack, down to the
zero-repetition end — so for any continuation the successful overall
parse consumes the longest candidate prefix the continuation accepts.
For patterns whose own enumeration is not longest-first (ordered
alternation with a shorter first branch), the longest-prefix consequence
fails, as the counterexample shows. -/
theorem c5_amended_star_greedy {σ αp : Type} (pat : MParser σ αp) (SRC : List Char)
    (f : Nat → Option σ) (start : Nat)
    (hpi : ∀ ctx s, ctx.source = SRC →
        (pat.parse_iter ctx s).1 = f s ∧ (pat.parse_iter ctx s).2.source = SRC)
    (hbt : ∀ (it : σ) (ctx : ParseContext), ctx.source = SRC →
        (pat.backtrack it ctx).1 = none ∧ (pat.backtrack it ctx).2.source = SRC)
    (hprog : ∀ s it, f s = some it → s < pat.match_end it)
    (L : List σ) (hch : DetChain f pat.match_end start L)
    (it0 : σ) (rs : List σ) (hrev : L.reverse = it0 :: rs)
    (F : Nat) (hF : L.length + 6 ≤ F)
    (ctx : ParseContext) (hsrc : ctx.source = SRC) :
    ∃ ctx', (starP F pat).parse_iter ctx start
        = (some ⟨start, it0 :: rs, rs.map pat.match_end⟩, ctx')
      ∧ ctx'.source = SRC
      ∧ collectEnds (starP F pat) (rs.length + 2)
          ⟨start, it0 :: rs, rs.map pat.match_end⟩ ctx'
        = (it0 :: rs).map pat.match_end ++ [start]
      ∧ List.Pairwise (fun a b => b < a) ((it0 :: rs).map pat.match_end ++ [start])
      ∧ ∀ (Q : Nat → Bool) (h : Nat) (t : List Nat),
          ((it0 :: rs).map pat.match_end ++ [start]).filter Q = h :: t →
          ∀ x ∈ (it0 :: rs).map pat.match_end ++ [start], Q x = true → x ≤ h := by
  obtain ⟨ctx1, hnx, hctx1, hstack, hmaxf⟩ := det_first_yield pat SRC f start hpi
    ⟨0, none, false⟩ rfl rfl L hch it0 rs hrev (Nat.zero_le _) ctx F hsrc hF
  have hL1 : 1 ≤ L.length := by
    rcases L with _ | ⟨a, L'⟩
    · simp at hrev
    · simp
  have hF7 : 7 ≤ F := by omega
  have hpi' : (starP F pat).parse_iter ctx start
      = (some ⟨start, it0 :: rs, rs.map pat.match_end⟩, ctx1) := by
    unfold starP repeatP
    simp only []
    rw [hnx]
  have hcol := det_collect pat SRC f start hbt ⟨0, none, false⟩ rfl rfl rfl F hF7
    (it0 :: rs) ctx1 (rs.length + 2) hstack hctx1 (by simp)
  simp only [List.tail_cons] at hcol
  have hdec := stack_ends_decreasing f pat.match_end start hprog (it0 :: rs) hstack
  refine ⟨ctx1, hpi', hctx1, hcol, hdec, ?_⟩
  intro Q h t hf x hx hQ
  exact pairwise_filter_head_max _ hdec Q h t hf x hx hQ

/-- C5 amended, witness: star(any_char) over source "aa" enumerates the
candidate ends 2, 1, 0, strictly decreasing. -/
theorem c5_amended_star_greedy_witness :
    ∃ ctx', (starP 8 any_char).parse_iter (ParseContext.new ['a', 'a']) 0
        = (some ⟨0, [⟨'a', 2⟩, ⟨'a', 1⟩], [1]⟩, ctx')
      ∧ ctx'.source = ['a', 'a']
      ∧ collectEnds (starP 8 any_char) 3 ⟨0, [⟨'a', 2⟩, ⟨'a', 1⟩], [1]⟩ ctx'
          = [2, 1, 0]
      ∧ List.Pairwise (fun a b => b < a) ([2, 1, 0] : List Nat)
      ∧ ∀ (Q : Nat → Bool) (h : Nat) (t : List Nat),
          ([2, 1, 0] : List Nat).filter Q = h :: t →
          ∀ x ∈ ([2, 1, 0] : List Nat), Q x = true → x ≤ h :=
  c5_amended_star_greedy any_char ['a', 'a']
    (fun s => (((['a', 'a'] : List Char).drop s).head?).map (fun c => ⟨c, s + 1⟩)) 0
    (any_char_det ['a', 'a']) (any_char_backtrack_det ['a', 'a'])
    (fun s it h => by
      have h2 := any_char_f_bound ['a', 'a'] s it h
      rw [h2.1]
      omega)
    (anyCharChain ['a', 'a'] 0) (anyCharChain_det ['a', 'a'] ['a', 'a'] 0 rfl)
    ⟨'a', 2⟩ [⟨'a', 1⟩] (by decide) 8 (by decide)
    (ParseContext.new ['a', 'a']) rfl

/-- C9: string(P) matches exactly what P matches (same context effects,
same candidate ends, same success), delegates backtracking to P, and
converts to the exact source slice from its start to P's current
match_end; consequently string(any_char+) parsed against any non-empty
source returns that source itself. -/
theorem c9_string_spec {σ α : Type} (p : MParser σ α) :
    (∀ it, (stringP p).match_end it = p.match_end it.iter) ∧
    (∀ ctx start,
        ((stringP p).parse_iter ctx start).2 = (p.parse_iter ctx start).2 ∧
        ((stringP p).parse_iter ctx start).1.isSome = (p.parse_iter ctx start).1.isSome ∧
        Option.map (stringP p).match_end ((stringP p).parse_iter ctx start).1
          = Option.map p.match_end (p.parse_iter ctx start).1) ∧
    (∀ it ctx, ((stringP p).backtrack it ctx).2 = (p.backtrack it.iter ctx).2 ∧
        ((stringP p).backtrack it ctx).1
          = Option.map (fun s => { it with iter := s }) (p.backtrack it.iter ctx).1) ∧
    (∀ it, (stringP p).convert it
        = (it.source.drop it.start).take (p.match_end it.iter - it.start)) ∧
    (∀ s : List Char, s ≠ [] → ∀ F fl, s.length + 6 ≤ F → 1 ≤ fl →
        parse (stringP (plusP F any_char)) fl s = some s) := by
  refine ⟨fun it => rfl, ?_, ?_, fun it => rfl, ?_⟩
  · intro ctx start
    unfold stringP
    simp only []
    cases hp : p.parse_iter ctx start with
    | mk o c =>
        cases o with
        | none => simp
        | some it => simp
  · intro it ctx
    unfold stringP
    simp only []
    cases hb : p.backtrack it.iter ctx with
    | mk o c =>
        cases o with
        | none => simp
        | some it' => simp
  · intro s hne F fl hF hfl
    have hch := anyCharChain_det s s 0 rfl
    have hlen : (anyCharChain s 0).length = s.length := anyCharChain_length s 0
    have hLne : anyCharChain s 0 ≠ [] := by
      rcases s with _ | ⟨c, r⟩
      · exact absurd rfl hne
      · simp [anyCharChain]
    cases hrev : (anyCharChain s 0).reverse with
    | nil => exact absurd (List.reverse_eq_nil_iff.mp hrev) hLne
    | cons it0 rs =>
        obtain ⟨ctx1, hnx, hctx1, hstack, hmaxf⟩ := det_first_yield any_char s
          (fun pos => ((s.drop pos).head?).map (fun c => (⟨c, pos + 1⟩ : CharIter))) 0
          (any_char_det s) ⟨1, none, false⟩ rfl rfl (anyCharChain s 0) hch it0 rs hrev
          (by show (1 : Nat) ≤ rs.length + 1; omega) (ParseContext.new s) F rfl
          (by rw [hlen]; omega)
        have hle : any_char.match_end it0 ≤ s.length := by
          cases hstack with
          | cons _ _ htail hfs =>
              have hb2 := any_char_f_bound s _ it0 hfs
              omega
        have hge := any_char_f_none s (any_char.match_end it0) hmaxf
        have hend : any_char.match_end it0 = s.length := by omega
        have hplus : (plusP F any_char).parse_iter (ParseContext.new s) 0
            = (some ⟨0, it0 :: rs, rs.map any_char.match_end⟩, ctx1) := by
          unfold plusP repeatP
          simp only []
          rw [hnx]
        have hsp : (stringP (plusP F any_char)).parse_iter (ParseContext.new s) 0
            = (some ⟨ctx1.source, 0, ⟨0, it0 :: rs, rs.map any_char.match_end⟩⟩, ctx1) := by
          unfold stringP
          simp only []
          rw [hplus]
        unfold parse
        rw [hsp]
        simp only []
        obtain ⟨g, rfl⟩ : ∃ g, fl = g + 1 := ⟨fl - 1, by omega⟩
        have hme : (stringP (plusP F any_char)).match_end
            ⟨ctx1.source, 0, ⟨0, it0 :: rs, rs.map any_char.match_end⟩⟩ = s.length := by
          show RepeatState.stEnd any_char emptyP
              ⟨0, it0 :: rs, rs.map any_char.match_end⟩ = s.length
          rw [stEnd_stack_yield any_char 0 it0 rs]
          exact hend
        have hloop : parseLoop (stringP (plusP F any_char)) (g + 1)
            ⟨ctx1.source, 0, ⟨0, it0 :: rs, rs.map any_char.match_end⟩⟩ ctx1
            = some (some ⟨ctx1.source, 0, ⟨0, it0 :: rs, rs.map any_char.match_end⟩⟩,
                ctx1) := by
          unfold parseLoop
          rw [if_pos (by rw [hme, hctx1])]
        rw [hloop]
        show some ((ctx1.source.drop 0).take
            ((plusP F any_char).match_end ⟨0, it0 :: rs, rs.map any_char.match_end⟩ - 0))
          = some s
        rw [show (plusP F any_char).match_end ⟨0, it0 :: rs, rs.map any_char.match_end⟩
            = s.length from by
          show RepeatState.stEnd any_char emptyP
              ⟨0, it0 :: rs, rs.map any_char.match_end⟩ = s.length
          rw [stEnd_stack_yield any_char 0 it0 rs]
          exact hend]
        rw [hctx1]
        simp

/-- C9 witness: string(any_char+) on "hi" returns "hi". -/
theorem c9_string_spec_witness :
    parse (stringP (plusP 8 any_char)) 1 ['h', 'i'] = some ['h', 'i'] :=
  (c9_string_spec emptyP).2.2.2.2 ['h', 'i'] (by decide) 8 1 (by decide) (by decide)

end AocParse

namespace AocParse

/-- C10 witness: star of exact "a" against source "b": the pattern fails
at offset 0 and the star still yields the zero-repetition candidate with
match_end 0. -/
theorem c10_repeat_min0_spec_witness :
    (repeatP (0 + 2) (exactP ['a']) emptyP ⟨0, none, false⟩).parse_iter
        (ParseContext.new ['b']) 0
      = (some ⟨0, [], []⟩, ((exactP ['a']).parse_iter (ParseContext.new ['b']) 0).2) ∧
    (repeatP (0 + 2) (exactP ['a']) emptyP ⟨0, none, false⟩).match_end ⟨0, [], []⟩ = 0 :=
  (c10_repeat_min0_spec (exactP ['a']) emptyP ⟨0, none, false⟩ rfl).1
    (ParseContext.new ['b']) 0 0 (by decide)

end AocParse
